import Mathlib

/-!
Verification development for the DrgPoRep driver (`src/storage-proofs/src/drgporep.rs`)
of the rust-fil-proofs repository.

The driver is generic over a `Hasher` capability and a `Graph`; those, together with
the `vde`, `merkle` and `util` modules it calls into, live outside the provided
sources and are modelled here from the specification (sections 4.A-4.E), while the
driver itself (`prove`, `verify`, `replicate`, `extract`, `extract_all`,
`DataProof::proves_challenge`) is translated line by line from the Rust source.

Byte buffers: the specification (section 4.A) requires the L-byte little-endian
codec to round-trip losslessly on canonical blocks, and every claim restricts
attention to buffers all of whose L-byte blocks are canonical field elements.  Such
a buffer of length N*L is therefore represented by the list of its N decoded domain
elements (`List F`); the codec itself is kept abstract through the hasher's
`intoBytes` map, which is all the driver ever observes of it.

Rust control effects are modelled explicitly: `Result::Err` values and panics
(`assert_ne!`, out-of-bounds `Vec` indexing) are distinct outcomes of `RustResult`.
-/

namespace DrgPoRep

/-- The two panic sites reachable in the modelled code: the
`assert_ne!(challenge, 0, "can not prove the first node")` assertions in
`prove`/`verify`, and out-of-bounds vector indexing such as `proof.nodes[i]`. -/
inductive PanicKind where
  | assertZero
  | indexOob
deriving DecidableEq

/-- Error taxonomy of the repository (spec section 7). -/
inductive RsError where
  | outOfRange
  | invalidEncoding
  | sizeMismatch
deriving DecidableEq

/-- Outcome of a Rust call returning `Result`, with panics modelled as a third,
distinguished outcome rather than as errors. -/
inductive RustResult (α : Type) where
  | ok (a : α)
  | err (e : RsError)
  | panic (k : PanicKind)
deriving DecidableEq

/-- Modelled from the spec: the Hasher capability of section 4.B (missing from
src/, only its trait bounds appear in the driver).  `intoBytes` is the canonical
L-byte encoding of a domain element, `kdf` the keyed derivation function,
`slothEncode`/`slothDecode` the keyed sloth permutation and its inverse (the
spec contract `sloth_decode(key, sloth_encode(key, x)) = x` is carried as a
hypothesis of the theorems that need it), and `hashLeaf`/`hashPair` the leaf and
node hashes used by the Merkle layer. -/
structure HasherModel (F : Type) where
  intoBytes : F → List Nat
  kdf : List Nat → Nat → F
  slothEncode : F → F → Nat → F
  slothDecode : F → F → Nat → F
  hashLeaf : F → F
  hashPair : F → F → F

/-- Modelled from the spec: the Graph interface of section 4.C (missing from
src/; the driver only uses `size`, `degree` and `parents`).  The structural
invariants (each parent strictly below its child, `parents 0 = []`) are stated
as hypotheses of the theorems that need them, mirroring the spec's invariants. -/
structure GraphModel where
  size : Nat
  degree : Nat
  parents : Nat → List Nat

variable {F : Type} [Inhabited F]

/-! ## Merkle layer (modelled from the spec, sections 3 and 4.D) -/

/-- Modelled from the spec: one level of the complete binary Merkle tree.  Leaves
are paired in order and hashed; an odd trailing leaf is duplicated (section 3). -/
def hashLayer (H : HasherModel F) (l : List F) : List F :=
  (List.range ((l.length + 1) / 2)).map fun j =>
    H.hashPair (l.getD (2 * j) default) (l.getD (min (2 * j + 1) (l.length - 1)) default)

/-- Sibling position of index `i` inside a layer of length `n`: the other member
of its pair, with the odd trailing leaf acting as its own sibling. -/
def sibIndex (n i : Nat) : Nat :=
  if i % 2 = 1 then i - 1 else min (i + 1) (n - 1)

/-- Fuel-driven computation of the Merkle root of a layer (the fuel is only a
structural-recursion device; `treeRoot` instantiates it with the layer length,
which always suffices). -/
def treeRootFuel (H : HasherModel F) : Nat → List F → F
  | 0, l => l.getD 0 default
  | fuel + 1, l =>
    if l.length ≤ 1 then l.getD 0 default else treeRootFuel H fuel (hashLayer H l)

/-- Modelled from the spec: the root of the complete binary Merkle tree over a
layer of hashes (section 3). -/
def treeRoot (H : HasherModel F) (l : List F) : F :=
  treeRootFuel H l.length l

/-- Fuel-driven computation of the Merkle inclusion path for index `i`: at every
level the sibling hash is recorded together with the orientation bit (`true`
when our node is the right child, i.e. when the current index bit is 1). -/
def genPathFuel (H : HasherModel F) : Nat → List F → Nat → List (F × Bool)
  | 0, _, _ => []
  | fuel + 1, l, i =>
    if l.length ≤ 1 then []
    else (l.getD (sibIndex l.length i) default, i % 2 == 1) ::
      genPathFuel H fuel (hashLayer H l) (i / 2)

/-- Modelled from the spec: the Merkle inclusion path for index `i` of a layer
(section 4.D, `gen_proof`). -/
def genPath (H : HasherModel F) (l : List F) (i : Nat) : List (F × Bool) :=
  genPathFuel H l.length l i

/-- Modelled from the spec: a Merkle inclusion proof (section 4.D): the tree
root, the leaf hash, and the sibling/orientation path from leaf to root. -/
structure MerkleProof (F : Type) where
  root : F
  leaf : F
  path : List (F × Bool)
deriving DecidableEq

/-- Recompute the root implied by a leaf hash and a path, folding from the leaf
upward; the orientation bit says on which side our running hash sits. -/
def pathRoot (H : HasherModel F) (leaf : F) (path : List (F × Bool)) : F :=
  path.foldl (fun acc e => if e.2 then H.hashPair e.1 acc else H.hashPair acc e.1) leaf

/-- The per-level orientation scan of `DataProof::proves_challenge`
(src lines 117-126): walk the path, requiring at every level that the current
low bit of the challenge agrees with the stored orientation bit, shifting the
challenge right as we climb. -/
def pathMatches : Nat → List (F × Bool) → Bool
  | _, [] => true
  | c, e :: rest => if ((c % 2 == 1) != e.2) then false else pathMatches (c / 2) rest

/-- Modelled from the spec: `MerkleProof::validate(i)` (section 4.D): the path
orientation must agree with the bit decomposition of `i`, and the root
recomputed from the stored leaf hash along the path must equal the stored root.
Note that the function receives no external commitment: it checks the proof
against the root the proof itself carries. -/
def MerkleProof.validate [DecidableEq F] (H : HasherModel F) (p : MerkleProof F) (i : Nat) : Bool :=
  pathMatches i p.path && (pathRoot H p.leaf p.path == p.root)

/-- Modelled from the spec: `MerkleProof::validate_data(leaf_value)` (section
4.D): the recomputed root must equal the stored root and the supplied leaf value
must hash to the stored leaf hash. -/
def MerkleProof.validate_data [DecidableEq F] (H : HasherModel F) (p : MerkleProof F) (v : F) : Bool :=
  (pathRoot H p.leaf p.path == p.root) && (p.leaf == H.hashLeaf v)

/-- Modelled from the spec: `tree.gen_proof(i)` for the Merkle tree whose leaves
are the domain elements of `leaves` (sections 3 and 4.D). -/
def genProof (H : HasherModel F) (leaves : List F) (i : Nat) : MerkleProof F :=
  { root := treeRoot H (leaves.map H.hashLeaf)
    leaf := (leaves.map H.hashLeaf).getD i default
    path := genPath H (leaves.map H.hashLeaf) i }

/-! ## VDE pipeline (modelled from the spec, section 4.E) -/

/-- Modelled from the spec: `util::data_at_node` at the domain level: the
element of node `i`, or `OutOfRange` when the index exceeds the buffer. -/
def data_at_node (buf : List F) (i : Nat) : RustResult F :=
  if i < buf.length then .ok (buf.getD i default) else .err .outOfRange

/-- Modelled from the spec: the key derivation of section 4.E, steps 2-3: the
KDF applied to the bytes of the replica id followed by the bytes of the current
buffer values of the parents, in parent order (accumulated left to right, as the
`fold` in `verify` does), with the graph degree as the second argument. -/
def createKey (H : HasherModel F) (G : GraphModel) (replica_id : F)
    (ps : List Nat) (buf : List F) : F :=
  H.kdf (ps.foldl (fun acc p => acc ++ H.intoBytes (buf.getD p default))
    (H.intoBytes replica_id)) G.degree

/-- Modelled from the spec: one step of `vde::encode` (section 4.E): node `i` is
overwritten with the sloth encoding, under the derived key, of its current
value. -/
def encodeNode (H : HasherModel F) (G : GraphModel) (sloth_iter : Nat)
    (replica_id : F) (buf : List F) (i : Nat) : List F :=
  buf.set i
    (H.slothEncode (createKey H G replica_id (G.parents i) buf) (buf.getD i default) sloth_iter)

/-- The prefix of `vde::encode` that has processed nodes `1, ..., k` in
ascending order. -/
def encodeUpTo (H : HasherModel F) (G : GraphModel) (sloth_iter : Nat)
    (replica_id : F) (buf : List F) (k : Nat) : List F :=
  (List.range' 1 k).foldl (encodeNode H G sloth_iter replica_id) buf

/-- Modelled from the spec: `vde::encode` (section 4.E): nodes are labelled in
ascending index order `1, ..., N-1`; node 0 keeps its plaintext value. -/
def encode (H : HasherModel F) (G : GraphModel) (sloth_iter : Nat)
    (replica_id : F) (buf : List F) : List F :=
  encodeUpTo H G sloth_iter replica_id buf (G.size - 1)

/-- Modelled from the spec: `vde::decode_block` (section 4.E): decode the single
node `i` of a replica buffer, reading the parents in their (still encoded)
replica form. -/
def decode_block (H : HasherModel F) (G : GraphModel) (sloth_iter : Nat)
    (replica_id : F) (buf : List F) (i : Nat) : F :=
  H.slothDecode (createKey H G replica_id (G.parents i) buf) (buf.getD i default) sloth_iter

/-- Modelled from the spec: `vde::decode` (section 4.E): every node `1, ..., N-1`
is decoded by `decode_block` against the untouched replica buffer; node 0 is
returned unchanged. -/
def decode (H : HasherModel F) (G : GraphModel) (sloth_iter : Nat)
    (replica_id : F) (buf : List F) : List F :=
  (List.range G.size).map fun i =>
    if i = 0 then buf.getD 0 default else decode_block H G sloth_iter replica_id buf i

/-! ## The DrgPoRep driver (translated from src/storage-proofs/src/drgporep.rs) -/

/-- `drgporep::DrgParams` (src lines 37-49). -/
structure DrgParams where
  nodes : Nat
  degree : Nat
  expansion_degree : Nat
  seed : List Nat
deriving DecidableEq

/-- `drgporep::SetupParams` (src lines 30-35). -/
structure SetupParams where
  lambda : Nat
  drg : DrgParams
  sloth_iter : Nat
deriving DecidableEq

/-- `drgporep::PublicParams` (src lines 51-62); the hasher is threaded
separately, mirroring the phantom type parameter. -/
structure PublicParams where
  lambda : Nat
  graph : GraphModel
  sloth_iter : Nat

/-- `DrgPoRep::setup` (src lines 216-225): build the graph from the DRG
parameters via the graph constructor `Gnew` (the generic `G::new`) and record
`lambda` and `sloth_iter`. -/
def setup (Gnew : Nat → Nat → Nat → List Nat → GraphModel) (sp : SetupParams) : PublicParams :=
  { lambda := sp.lambda
    graph := Gnew sp.drg.nodes sp.drg.degree sp.drg.expansion_degree sp.drg.seed
    sloth_iter := sp.sloth_iter }

/-- `porep::Tau` : the pair of Merkle commitments. -/
structure Tau (F : Type) where
  comm_d : F
  comm_r : F
deriving DecidableEq

/-- `porep::ProverAux` : both trees, kept as their leaf lists (the spec allows
regenerating proofs on demand from the leaves, section 9). -/
structure ProverAux (F : Type) where
  tree_d : List F
  tree_r : List F
deriving DecidableEq

/-- `drgporep::PublicInputs` (src lines 17-22). -/
structure PublicInputs (F : Type) where
  replica_id : F
  challenges : List Nat
  tau : Option (Tau F)

/-- `drgporep::PrivateInputs` (src lines 24-28). -/
structure PrivateInputs (F : Type) where
  replica : List F
  aux : ProverAux F

/-- `drgporep::DataProof` (src lines 94-98). -/
structure DataProof (F : Type) where
  proof : MerkleProof F
  data : F
deriving DecidableEq

/-- `DataProof::proves_challenge` (src lines 117-126). -/
def DataProof.proves_challenge (dp : DataProof F) (challenge : Nat) : Bool :=
  pathMatches challenge dp.proof.path

/-- `drgporep::Proof` (src lines 131-136). -/
structure Proof (F : Type) where
  replica_nodes : List (DataProof F)
  replica_parents : List (List (Nat × DataProof F))
  nodes : List (DataProof F)
deriving DecidableEq

/-- The parent collection loop of `DrgPoRep::prove` (src lines 257-269): for
each parent, in graph order, pair its index with a Merkle proof from the replica
tree and its replica value. -/
def collectParents (H : HasherModel F) (replica tree_r : List F) :
    List Nat → RustResult (List (Nat × DataProof F))
  | [] => .ok []
  | p :: ps =>
    match data_at_node replica p with
    | .err e => .err e
    | .panic k => .panic k
    | .ok d =>
      match collectParents H replica tree_r ps with
      | .err e => .err e
      | .panic k => .panic k
      | .ok rest => .ok ((p, { proof := genProof H tree_r p, data := d }) :: rest)

/-- The body of `DrgPoRep::prove`'s per-challenge loop (src lines 238-297):
reduce the challenge modulo the graph size, assert it is nonzero (a panic
otherwise), then produce the replica node proof, the parent proofs, and the
plaintext node proof whose data is the decoded block. -/
def proveOne (H : HasherModel F) (pp : PublicParams) (replica_id : F)
    (replica tree_d tree_r : List F) (c0 : Nat) :
    RustResult (DataProof F × List (Nat × DataProof F) × DataProof F) :=
  let challenge := c0 % pp.graph.size
  if challenge = 0 then .panic .assertZero
  else
    match data_at_node replica challenge with
    | .err e => .err e
    | .panic k => .panic k
    | .ok d =>
      match collectParents H replica tree_r (pp.graph.parents challenge) with
      | .err e => .err e
      | .panic k => .panic k
      | .ok rps =>
        .ok ({ proof := genProof H tree_r challenge, data := d }, rps,
          { proof := genProof H tree_d challenge
            data := decode_block H pp.graph pp.sloth_iter replica_id replica challenge })

/-- `DrgPoRep::prove`'s loop over the challenge list, accumulating the three
proof vectors; the first error or panic aborts the whole call (src lines
232-298). -/
def proveAux (H : HasherModel F) (pp : PublicParams) (replica_id : F)
    (replica tree_d tree_r : List F) :
    List Nat → RustResult (List (DataProof F) × List (List (Nat × DataProof F)) × List (DataProof F))
  | [] => .ok ([], [], [])
  | c :: cs =>
    match proveOne H pp replica_id replica tree_d tree_r c with
    | .err e => .err e
    | .panic k => .panic k
    | .ok (rn, rp, nd) =>
      match proveAux H pp replica_id replica tree_d tree_r cs with
      | .err e => .err e
      | .panic k => .panic k
      | .ok (rns, rps, nds) => .ok (rn :: rns, rp :: rps, nd :: nds)

/-- `DrgPoRep::prove` (src lines 227-303). -/
def prove (H : HasherModel F) (pp : PublicParams) (pub_inputs : PublicInputs F)
    (priv_inputs : PrivateInputs F) : RustResult (Proof F) :=
  match proveAux H pp pub_inputs.replica_id priv_inputs.replica
      priv_inputs.aux.tree_d priv_inputs.aux.tree_r pub_inputs.challenges with
  | .err e => .err e
  | .panic k => .panic k
  | .ok (rns, rps, nds) => .ok { replica_nodes := rns, replica_parents := rps, nodes := nds }

/-- The `key_input` rebuilt by `verify` (src lines 361-369): the bytes of the
replica id, extended in a left fold with the bytes of each claimed parent's
data value, in proof order. -/
def keyInputOf (H : HasherModel F) (rid : F) (rp : List (Nat × DataProof F)) : List Nat :=
  rp.foldl (fun acc pe => acc ++ H.intoBytes pe.2.data) (H.intoBytes rid)

/-- The `unsealed` value computed by `verify` (src lines 371-373): sloth-decode
of the claimed replica node value under the KDF of the rebuilt key input, the
`degree` argument being `pp.graph.degree()`. -/
def unsealedOf (H : HasherModel F) (pp : PublicParams) (rid : F) (rn : DataProof F)
    (rp : List (Nat × DataProof F)) : F :=
  H.slothDecode (H.kdf (keyInputOf H rid rp) pp.graph.degree) rn.data pp.sloth_iter

/-- The body of `DrgPoRep::verify`'s per-challenge loop (src lines 310-383):
`none` means the iteration fell through to the next challenge; `some r` means
the call returns `r` immediately (an `Ok(false)` for a failed check, or a panic
from the nonzero assertion / from indexing a too-short proof vector).  The
checks appear in exactly the source order; the source's `key_input`/`key`/
`unsealed` let bindings are the named definitions `keyInputOf`/`unsealedOf`. -/
def verifyStep [DecidableEq F] (H : HasherModel F) (pp : PublicParams) (pub_inputs : PublicInputs F)
    (proof : Proof F) (i : Nat) : Option (RustResult Bool) :=
  let c := pub_inputs.challenges.getD i 0
  if c ≥ pp.graph.size then some (.ok false)
  else
    match proof.nodes[i]? with
    | none => some (.panic .indexOob)
    | some nd =>
      if nd.proves_challenge c = false then some (.ok false)
      else
        match proof.replica_nodes[i]? with
        | none => some (.panic .indexOob)
        | some rn =>
          if rn.proves_challenge c = false then some (.ok false)
          else
            match proof.replica_parents[i]? with
            | none => some (.panic .indexOob)
            | some rp =>
              let expected_parents := pp.graph.parents c
              if rp.length ≠ expected_parents.length then some (.ok false)
              else if ((rp.zip expected_parents).all fun pe => pe.1.1 == pe.2) = false then
                some (.ok false)
              else
                let challenge := c % pp.graph.size
                if challenge = 0 then some (.panic .assertZero)
                else if rn.proof.validate H challenge = false then some (.ok false)
                else if (rp.all fun pe => pe.2.proof.validate H pe.1) = false then
                  some (.ok false)
                else
                  if unsealedOf H pp pub_inputs.replica_id rn rp ≠ nd.data then
                    some (.ok false)
                  else if nd.proof.validate_data H
                      (unsealedOf H pp pub_inputs.replica_id rn rp) = false then
                    some (.ok false)
                  else none

/-- `DrgPoRep::verify`'s loop over challenge positions, in ascending order; the
first early-returning iteration decides the call. -/
def verifyAux [DecidableEq F] (H : HasherModel F) (pp : PublicParams) (pub_inputs : PublicInputs F)
    (proof : Proof F) : List Nat → RustResult Bool
  | [] => .ok true
  | i :: is =>
    match verifyStep H pp pub_inputs proof i with
    | none => verifyAux H pp pub_inputs proof is
    | some r => r

/-- `DrgPoRep::verify` (src lines 305-386). -/
def verify [DecidableEq F] (H : HasherModel F) (pp : PublicParams) (pub_inputs : PublicInputs F)
    (proof : Proof F) : RustResult Bool :=
  verifyAux H pp pub_inputs proof (List.range pub_inputs.challenges.length)

/-- `DrgPoRep::replicate` (src lines 397-414): commit to the plaintext, encode
the buffer in place, commit to the replica; the mutated buffer is returned
alongside `(Tau, ProverAux)` since the Lean embedding is pure. -/
structure ReplicateOutput (F : Type) where
  tau : Tau F
  aux : ProverAux F
  buf : List F

/-- `DrgPoRep::replicate` (src lines 397-414). -/
def replicate (H : HasherModel F) (pp : PublicParams) (replica_id : F)
    (data : List F) : ReplicateOutput F :=
  let comm_d := treeRoot H (data.map H.hashLeaf)
  let encoded := encode H pp.graph pp.sloth_iter replica_id data
  let comm_r := treeRoot H (encoded.map H.hashLeaf)
  { tau := { comm_d := comm_d, comm_r := comm_r }
    aux := { tree_d := data, tree_r := encoded }
    buf := encoded }

/-- `DrgPoRep::extract_all` (src lines 416-422): delegate to `vde::decode`. -/
def extract_all (H : HasherModel F) (pp : PublicParams) (replica_id : F)
    (data : List F) : List F :=
  decode H pp.graph pp.sloth_iter replica_id data

/-- `DrgPoRep::extract` (src lines 424-431): delegate to `vde::decode_block`. -/
def extract (H : HasherModel F) (pp : PublicParams) (replica_id : F)
    (data : List F) (node : Nat) : F :=
  decode_block H pp.graph pp.sloth_iter replica_id data node

/-! ## A small concrete instantiation used to exercise the theorems -/

/-- A concrete hasher over `Int` used to instantiate the generic theorems on
small inputs: the sloth permutation is keyed addition (invertible), and the
hash maps are simple injective-on-small-inputs polynomials. -/
def intHasher : HasherModel Int where
  intoBytes x := [x.natAbs]
  kdf l d := ((l.foldl (fun a b => a + b) 0 + d : Nat) : Int)
  slothEncode k x it := x + k + it
  slothDecode k y it := y - k - it
  hashLeaf a := a + 7
  hashPair a b := 2 * a + 3 * b + 1

/-- A two-node graph: node 1 has the single parent 0. -/
def toyGraph2 : GraphModel where
  size := 2
  degree := 1
  parents i := if i = 1 then [0] else []

/-- A three-node chain graph: parent of 1 is 0, parent of 2 is 1. -/
def toyGraph3 : GraphModel where
  size := 3
  degree := 1
  parents i := if i = 1 then [0] else if i = 2 then [1] else []

def toyPP2 : PublicParams where
  lambda := 32
  graph := toyGraph2
  sloth_iter := 1

def toyPP3 : PublicParams where
  lambda := 32
  graph := toyGraph3
  sloth_iter := 1

/-- Setup parameters matching `toyGraph3`, fed through `setup`. -/
def toySP3 : SetupParams where
  lambda := 32
  drg := { nodes := 3, degree := 1, expansion_degree := 0, seed := [7] }
  sloth_iter := 1

/-! ## Analysis of the verify loop -/

/-- The check chain of one `verify` iteration once the three vector lookups have
succeeded, with `c` the challenge at this position; the checks are in exactly
the source order (src lines 313-382). -/
def stepChecks [DecidableEq F] (H : HasherModel F) (pp : PublicParams) (rid : F) (c : Nat)
    (nd rn : DataProof F) (rp : List (Nat × DataProof F)) : Option (RustResult Bool) :=
  if c ≥ pp.graph.size then some (.ok false)
  else if nd.proves_challenge c = false then some (.ok false)
  else if rn.proves_challenge c = false then some (.ok false)
  else if rp.length ≠ (pp.graph.parents c).length then some (.ok false)
  else if ((rp.zip (pp.graph.parents c)).all fun pe => pe.1.1 == pe.2) = false then
    some (.ok false)
  else if c % pp.graph.size = 0 then some (.panic .assertZero)
  else if rn.proof.validate H (c % pp.graph.size) = false then some (.ok false)
  else if (rp.all fun pe => pe.2.proof.validate H pe.1) = false then some (.ok false)
  else if unsealedOf H pp rid rn rp ≠ nd.data then some (.ok false)
  else if nd.proof.validate_data H (unsealedOf H pp rid rn rp) = false then some (.ok false)
  else none

/-! ## The honest proof produced by prove -/

/-- The replica-side `DataProof` that `prove` builds for node `c`: a Merkle
proof from the replica tree and the replica value of the node (src lines
246-252). -/
def honestReplicaNode (H : HasherModel F) (replica tree_r : List F) (c : Nat) : DataProof F :=
  { proof := genProof H tree_r c, data := replica.getD c default }

/-- The parent vector that `prove` builds for challenge `c` (src lines
254-271): each graph parent, in order, with its replica-tree proof and value. -/
def honestParents (H : HasherModel F) (G : GraphModel) (replica tree_r : List F) (c : Nat) :
    List (Nat × DataProof F) :=
  (G.parents c).map fun p => (p, honestReplicaNode H replica tree_r p)

/-- The plaintext-side `DataProof` that `prove` builds for challenge `c`: a
Merkle proof from the data tree and the decoded block value (src lines
273-297). -/
def honestDataNode (H : HasherModel F) (pp : PublicParams) (rid : F)
    (replica tree_d : List F) (c : Nat) : DataProof F :=
  { proof := genProof H tree_d c
    data := decode_block H pp.graph pp.sloth_iter rid replica c }

/-- The complete proof `prove` returns on an in-range nonzero challenge list. -/
def honestProof (H : HasherModel F) (pp : PublicParams) (rid : F)
    (replica tree_d tree_r : List F) (chs : List Nat) : Proof F :=
  { replica_nodes := chs.map (honestReplicaNode H replica tree_r)
    replica_parents := chs.map (honestParents H pp.graph replica tree_r)
    nodes := chs.map (honestDataNode H pp rid replica tree_d) }

/-! ## Further concrete instances used by witnesses and counterexamples -/

/-- Replication of the two-node buffer `[3, 10]` under replica id 5. -/
def repl2A : ReplicateOutput Int := replicate intHasher toyPP2 5 [3, 10]

/-- Replication of a different two-node buffer `[4, 12]` under the same id. -/
def repl2B : ReplicateOutput Int := replicate intHasher toyPP2 5 [4, 12]

/-- The honest proof for challenge list `[1]` over the first buffer. -/
def honest2A : Proof Int := honestProof intHasher toyPP2 5 repl2A.buf [3, 10] repl2A.buf [1]

/-- The honest proof for challenge list `[1]` over the second buffer. -/
def honest2B : Proof Int := honestProof intHasher toyPP2 5 repl2B.buf [4, 12] repl2B.buf [1]

/-- Replication of the three-node buffer `[2, 5, 11]` under replica id 3. -/
def repl3 : ReplicateOutput Int := replicate intHasher toyPP3 3 [2, 5, 11]

/-- The honest proof for challenge list `[1, 2]` over the three-node buffer. -/
def honest3 : Proof Int := honestProof intHasher toyPP3 3 repl3.buf [2, 5, 11] repl3.buf [1, 2]

/-- A proof whose three vectors are empty. -/
def emptyProofInt : Proof Int := { replica_nodes := [], replica_parents := [], nodes := [] }

/-- A crafted proof whose single slot is consistent with challenge 0 on the
two-node graph: its paths have orientation bit `false` at the single level and
its parent list is empty, like `G.parents 0`. -/
def zeroProofInt : Proof Int :=
  { replica_nodes := [⟨⟨0, 0, [(0, false)]⟩, 0⟩]
    replica_parents := [[]]
    nodes := [⟨⟨0, 0, [(0, false)]⟩, 0⟩] }

/-- The honest plaintext node of `honest2A` with its data value tampered. -/
def c3nd : DataProof Int :=
  { proof := (honestDataNode intHasher toyPP2 5 repl2A.buf [3, 10] 1).proof
    data := (honestDataNode intHasher toyPP2 5 repl2A.buf [3, 10] 1).data + 1 }

/-- `honest2A` with the plaintext node value tampered, so that the recomputed
`unsealed` no longer matches it. -/
def c3proof : Proof Int :=
  { replica_nodes := honest2A.replica_nodes
    replica_parents := honest2A.replica_parents
    nodes := [c3nd] }

/-! ## List access helpers -/

theorem getD_set_self {α : Type} (l : List α) (i : Nat) (a d : α) (h : i < l.length) :
    (l.set i a).getD i d = a := by
  simp [List.getD, List.getElem?_set, h]

theorem getD_set_ne {α : Type} (l : List α) (i j : Nat) (a d : α) (h : i ≠ j) :
    (l.set i a).getD j d = l.getD j d := by
  simp [List.getD, List.getElem?_set, h]

theorem getD_map_of_lt {α β : Type} (f : α → β) (l : List α) (i : Nat) (d : α) (dB : β)
    (h : i < l.length) : (l.map f).getD i dB = f (l.getD i d) := by
  simp [List.getD, List.getElem?_map, List.getElem?_eq_getElem, h]

theorem getElem?_eq_some_getD {α : Type} (l : List α) (i : Nat) (d : α) (h : i < l.length) :
    l[i]? = some (l.getD i d) := by
  simp [List.getD, List.getElem?_eq_getElem, h]

theorem range'_one_concat (s n : Nat) : List.range' s (n + 1) = List.range' s n ++ [s + n] := by
  exact List.range'_1_concat s n

/-! ## Merkle layer lemmas -/

theorem hashLayer_length (H : HasherModel F) (l : List F) :
    (hashLayer H l).length = (l.length + 1) / 2 := by
  simp [hashLayer]

theorem hashLayer_getD (H : HasherModel F) (l : List F) (j : Nat)
    (h : j < (l.length + 1) / 2) :
    (hashLayer H l).getD j default =
      H.hashPair (l.getD (2 * j) default) (l.getD (min (2 * j + 1) (l.length - 1)) default) := by
  simp [hashLayer, List.getD, List.getElem?_map, List.getElem?_range, h]

theorem treeRootFuel_small (H : HasherModel F) (l : List F) (h : l.length ≤ 1) :
    ∀ fuel, treeRootFuel H fuel l = l.getD 0 default := by
  intro fuel
  cases fuel with
  | zero => rfl
  | succ f => simp [treeRootFuel, h]

theorem treeRootFuel_congr (H : HasherModel F) :
    ∀ f₁ f₂ (l : List F), l.length ≤ f₁ → l.length ≤ f₂ →
      treeRootFuel H f₁ l = treeRootFuel H f₂ l := by
  intro f₁
  induction f₁ with
  | zero =>
    intro f₂ l h₁ _
    have hl : l.length ≤ 1 := by omega
    rw [treeRootFuel_small H l hl, treeRootFuel_small H l hl]
  | succ f ih =>
    intro f₂ l h₁ h₂
    by_cases hl : l.length ≤ 1
    · rw [treeRootFuel_small H l hl, treeRootFuel_small H l hl]
    · have hlen : (hashLayer H l).length = (l.length + 1) / 2 := hashLayer_length H l
      obtain ⟨f₂', rfl⟩ : ∃ f₂', f₂ = f₂' + 1 := ⟨f₂ - 1, by omega⟩
      simp only [treeRootFuel, if_neg hl]
      exact ih f₂' (hashLayer H l) (by omega) (by omega)

theorem treeRoot_small (H : HasherModel F) (l : List F) (h : l.length ≤ 1) :
    treeRoot H l = l.getD 0 default :=
  treeRootFuel_small H l h _

theorem treeRoot_step (H : HasherModel F) (l : List F) (h : ¬ l.length ≤ 1) :
    treeRoot H l = treeRoot H (hashLayer H l) := by
  unfold treeRoot
  obtain ⟨n, hn⟩ : ∃ n, l.length = n + 1 := ⟨l.length - 1, by omega⟩
  rw [hn]
  simp only [treeRootFuel]
  rw [if_neg h]
  exact treeRootFuel_congr H n (hashLayer H l).length (hashLayer H l)
    (by rw [hashLayer_length]; omega) (le_refl _)

theorem genPathFuel_small (H : HasherModel F) (l : List F) (i : Nat) (h : l.length ≤ 1) :
    ∀ fuel, genPathFuel H fuel l i = [] := by
  intro fuel
  cases fuel with
  | zero => rfl
  | succ f => simp [genPathFuel, h]

theorem genPathFuel_congr (H : HasherModel F) :
    ∀ f₁ f₂ (l : List F) (i : Nat), l.length ≤ f₁ → l.length ≤ f₂ →
      genPathFuel H f₁ l i = genPathFuel H f₂ l i := by
  intro f₁
  induction f₁ with
  | zero =>
    intro f₂ l i h₁ _
    have hl : l.length ≤ 1 := by omega
    rw [genPathFuel_small H l i hl, genPathFuel_small H l i hl]
  | succ f ih =>
    intro f₂ l i h₁ h₂
    by_cases hl : l.length ≤ 1
    · rw [genPathFuel_small H l i hl, genPathFuel_small H l i hl]
    · have hlen : (hashLayer H l).length = (l.length + 1) / 2 := hashLayer_length H l
      obtain ⟨f₂', rfl⟩ : ∃ f₂', f₂ = f₂' + 1 := ⟨f₂ - 1, by omega⟩
      simp only [genPathFuel, if_neg hl]
      rw [ih f₂' (hashLayer H l) (i / 2) (by omega) (by omega)]

theorem genPath_small (H : HasherModel F) (l : List F) (i : Nat) (h : l.length ≤ 1) :
    genPath H l i = [] :=
  genPathFuel_small H l i h _

theorem genPath_step (H : HasherModel F) (l : List F) (i : Nat) (h : ¬ l.length ≤ 1) :
    genPath H l i =
      (l.getD (sibIndex l.length i) default, i % 2 == 1) :: genPath H (hashLayer H l) (i / 2) := by
  unfold genPath
  obtain ⟨n, hn⟩ : ∃ n, l.length = n + 1 := ⟨l.length - 1, by omega⟩
  rw [hn]
  simp only [genPathFuel]
  rw [if_neg h, ← hn,
    genPathFuel_congr H n (hashLayer H l).length (hashLayer H l) (i / 2)
      (by rw [hashLayer_length]; omega) (le_refl _)]

theorem pathRoot_genPath_aux (H : HasherModel F) :
    ∀ n (l : List F) (i : Nat), l.length ≤ n → i < l.length →
      pathRoot H (l.getD i default) (genPath H l i) = treeRoot H l := by
  intro n
  induction n with
  | zero => intro l i h hi; omega
  | succ n ih =>
    intro l i h hi
    by_cases hl : l.length ≤ 1
    · have : i = 0 := by omega
      subst this
      rw [genPath_small H l 0 hl, treeRoot_small H l hl]
      rfl
    · rw [genPath_step H l i hl]
      have hcomb :
          (if (i % 2 == 1 : Bool) then
            H.hashPair (l.getD (sibIndex l.length i) default) (l.getD i default)
          else H.hashPair (l.getD i default) (l.getD (sibIndex l.length i) default)) =
          (hashLayer H l).getD (i / 2) default := by
        rw [hashLayer_getD H l (i / 2) (by omega)]
        rcases Nat.mod_two_eq_zero_or_one i with hp | hp
        · have h1 : 2 * (i / 2) = i := by omega
          have h2 : sibIndex l.length i = min (i + 1) (l.length - 1) := by
            simp [sibIndex, hp]
          rw [h1, h2]
          simp [hp]
        · have h1 : 2 * (i / 2) = i - 1 := by omega
          have h2 : sibIndex l.length i = i - 1 := by simp [sibIndex, hp]
          have h3 : min (i - 1 + 1) (l.length - 1) = i := by omega
          rw [h1, h2, h3]
          simp [hp]
      have hrest := ih (hashLayer H l) (i / 2)
        (by rw [hashLayer_length]; omega) (by rw [hashLayer_length]; omega)
      calc pathRoot H (l.getD i default)
            ((l.getD (sibIndex l.length i) default, i % 2 == 1) ::
              genPath H (hashLayer H l) (i / 2))
          = pathRoot H ((hashLayer H l).getD (i / 2) default)
              (genPath H (hashLayer H l) (i / 2)) := by
            simp only [pathRoot, List.foldl_cons]
            rw [← hcomb]
        _ = treeRoot H (hashLayer H l) := hrest
        _ = treeRoot H l := (treeRoot_step H l hl).symm

theorem pathRoot_genPath (H : HasherModel F) (l : List F) (i : Nat) (hi : i < l.length) :
    pathRoot H (l.getD i default) (genPath H l i) = treeRoot H l :=
  pathRoot_genPath_aux H l.length l i (le_refl _) hi

theorem pathMatches_genPath_aux (H : HasherModel F) :
    ∀ n (l : List F) (i : Nat), l.length ≤ n → i < l.length →
      pathMatches i (genPath H l i) = true := by
  intro n
  induction n with
  | zero => intro l i h hi; omega
  | succ n ih =>
    intro l i h hi
    by_cases hl : l.length ≤ 1
    · rw [genPath_small H l i hl]; rfl
    · rw [genPath_step H l i hl]
      simp only [pathMatches, bne_self_eq_false, if_false]
      exact ih (hashLayer H l) (i / 2) (by rw [hashLayer_length]; omega)
        (by rw [hashLayer_length]; omega)

theorem pathMatches_genPath (H : HasherModel F) (l : List F) (i : Nat) (hi : i < l.length) :
    pathMatches i (genPath H l i) = true :=
  pathMatches_genPath_aux H l.length l i (le_refl _) hi

theorem pathMatches_genPath_inj_aux (H : HasherModel F) :
    ∀ n (l : List F) (c i : Nat), l.length ≤ n → c < l.length → i < l.length →
      pathMatches c (genPath H l i) = true → c = i := by
  intro n
  induction n with
  | zero => intro l c i h hc hi hm; omega
  | succ n ih =>
    intro l c i h hc hi hm
    by_cases hl : l.length ≤ 1
    · omega
    · rw [genPath_step H l i hl] at hm
      simp only [pathMatches] at hm
      by_cases hb : ((c % 2 == 1) != (i % 2 == 1)) = true
      · rw [if_pos hb] at hm; exact absurd hm (by simp)
      · rw [if_neg hb] at hm
        have hmod : c % 2 = i % 2 := by
          rcases Nat.mod_two_eq_zero_or_one c with h1 | h1 <;>
            rcases Nat.mod_two_eq_zero_or_one i with h2 | h2 <;>
            simp [h1, h2] at hb ⊢
        have := ih (hashLayer H l) (c / 2) (i / 2) (by rw [hashLayer_length]; omega)
          (by rw [hashLayer_length]; omega) (by rw [hashLayer_length]; omega) hm
        omega

theorem pathMatches_genPath_ne (H : HasherModel F) (l : List F) (c i : Nat)
    (hc : c < l.length) (hi : i < l.length) (hne : c ≠ i) :
    pathMatches c (genPath H l i) = false := by
  by_cases hm : pathMatches c (genPath H l i) = true
  · exact absurd (pathMatches_genPath_inj_aux H l.length l c i (le_refl _) hc hi hm) hne
  · simpa using hm

/-! ## Honest Merkle proofs validate -/

theorem genProof_validate [DecidableEq F] (H : HasherModel F) (leaves : List F) (i : Nat)
    (hi : i < leaves.length) : (genProof H leaves i).validate H i = true := by
  have hlen : (leaves.map H.hashLeaf).length = leaves.length := by simp
  simp only [genProof, MerkleProof.validate]
  rw [pathMatches_genPath H _ i (by omega), pathRoot_genPath H _ i (by omega)]
  simp

theorem genProof_proves_self (H : HasherModel F) (leaves : List F) (i : Nat)
    (hi : i < leaves.length) : pathMatches i (genProof H leaves i).path = true := by
  have hlen : (leaves.map H.hashLeaf).length = leaves.length := by simp
  simp only [genProof]
  exact pathMatches_genPath H _ i (by omega)

theorem genProof_not_proves_other (H : HasherModel F) (leaves : List F) (c i : Nat)
    (hc : c < leaves.length) (hi : i < leaves.length) (hne : c ≠ i) :
    pathMatches c (genProof H leaves i).path = false := by
  have hlen : (leaves.map H.hashLeaf).length = leaves.length := by simp
  simp only [genProof]
  exact pathMatches_genPath_ne H _ c i (by omega) (by omega) hne

theorem genProof_validate_data [DecidableEq F] (H : HasherModel F) (leaves : List F) (i : Nat)
    (hi : i < leaves.length) :
    (genProof H leaves i).validate_data H (leaves.getD i default) = true := by
  have hlen : (leaves.map H.hashLeaf).length = leaves.length := by simp
  simp only [genProof, MerkleProof.validate_data]
  rw [pathRoot_genPath H _ i (by omega),
    getD_map_of_lt H.hashLeaf leaves i default default hi]
  simp

/-! ## VDE encode/decode lemmas -/

theorem getD_eq_getElem_of_lt {α : Type} (l : List α) (i : Nat) (d : α) (h : i < l.length) :
    l.getD i d = l[i] := by
  simp [List.getD, List.getElem?_eq_getElem, h]

theorem encodeNode_length (H : HasherModel F) (G : GraphModel) (it : Nat) (rid : F)
    (buf : List F) (i : Nat) : (encodeNode H G it rid buf i).length = buf.length := by
  simp [encodeNode]

theorem encodeUpTo_zero (H : HasherModel F) (G : GraphModel) (it : Nat) (rid : F)
    (buf : List F) : encodeUpTo H G it rid buf 0 = buf := rfl

theorem encodeUpTo_succ (H : HasherModel F) (G : GraphModel) (it : Nat) (rid : F)
    (buf : List F) (k : Nat) :
    encodeUpTo H G it rid buf (k + 1) =
      encodeNode H G it rid (encodeUpTo H G it rid buf k) (k + 1) := by
  unfold encodeUpTo
  rw [range'_one_concat, List.foldl_append]
  simp [Nat.add_comm]

theorem encodeUpTo_length (H : HasherModel F) (G : GraphModel) (it : Nat) (rid : F)
    (buf : List F) : ∀ k, (encodeUpTo H G it rid buf k).length = buf.length := by
  intro k
  induction k with
  | zero => rfl
  | succ k ih => rw [encodeUpTo_succ, encodeNode_length, ih]

theorem encodeUpTo_getD_of_out (H : HasherModel F) (G : GraphModel) (it : Nat) (rid : F)
    (buf : List F) : ∀ k j, (j = 0 ∨ k < j) →
      (encodeUpTo H G it rid buf k).getD j default = buf.getD j default := by
  intro k
  induction k with
  | zero => intro j _; rfl
  | succ k ih =>
    intro j hj
    rw [encodeUpTo_succ]
    unfold encodeNode
    rw [getD_set_ne _ _ _ _ _ (by omega)]
    exact ih j (by omega)

theorem encodeUpTo_getD_stable (H : HasherModel F) (G : GraphModel) (it : Nat) (rid : F)
    (buf : List F) : ∀ k j, j ≤ k →
      (encodeUpTo H G it rid buf k).getD j default =
        (encodeUpTo H G it rid buf j).getD j default := by
  intro k
  induction k with
  | zero =>
    intro j hj
    have hj0 : j = 0 := by omega
    subst hj0
    rfl
  | succ k ih =>
    intro j hj
    by_cases hjk : j = k + 1
    · rw [hjk]
    · rw [encodeUpTo_succ]
      unfold encodeNode
      rw [getD_set_ne _ _ _ _ _ (by omega)]
      exact ih j (by omega)

theorem encodeUpTo_getD_self (H : HasherModel F) (G : GraphModel) (it : Nat) (rid : F)
    (buf : List F) (j : Nat) (hj : 1 ≤ j) (hlen : j < buf.length) :
    (encodeUpTo H G it rid buf j).getD j default =
      H.slothEncode (createKey H G rid (G.parents j) (encodeUpTo H G it rid buf (j - 1)))
        (buf.getD j default) it := by
  obtain ⟨k, rfl⟩ : ∃ k, j = k + 1 := ⟨j - 1, by omega⟩
  rw [encodeUpTo_succ]
  unfold encodeNode
  rw [getD_set_self _ _ _ _ (by rw [encodeUpTo_length]; omega)]
  rw [encodeUpTo_getD_of_out H G it rid buf k (k + 1) (by omega)]
  simp

theorem foldl_bytes_congr (H : HasherModel F) (buf1 buf2 : List F) :
    ∀ (ps : List Nat) (acc : List Nat),
      (∀ p ∈ ps, buf1.getD p default = buf2.getD p default) →
      ps.foldl (fun acc p => acc ++ H.intoBytes (buf1.getD p default)) acc =
        ps.foldl (fun acc p => acc ++ H.intoBytes (buf2.getD p default)) acc := by
  intro ps
  induction ps with
  | nil => intro acc _; rfl
  | cons p ps ih =>
    intro acc h
    simp only [List.foldl_cons]
    rw [h p (List.mem_cons_self p ps)]
    exact ih _ fun q hq => h q (List.mem_cons_of_mem p hq)

theorem createKey_congr (H : HasherModel F) (G : GraphModel) (rid : F) (ps : List Nat)
    (buf1 buf2 : List F) (h : ∀ p ∈ ps, buf1.getD p default = buf2.getD p default) :
    createKey H G rid ps buf1 = createKey H G rid ps buf2 := by
  unfold createKey
  rw [foldl_bytes_congr H buf1 buf2 ps _ h]

theorem encode_getD (H : HasherModel F) (G : GraphModel) (it : Nat) (rid : F)
    (buf : List F) (hpar : ∀ i, ∀ p ∈ G.parents i, p < i) (hlen : buf.length = G.size)
    (j : Nat) (hj1 : 1 ≤ j) (hj2 : j < G.size) :
    (encode H G it rid buf).getD j default =
      H.slothEncode (createKey H G rid (G.parents j) (encode H G it rid buf))
        (buf.getD j default) it := by
  unfold encode
  have hstable : ∀ p, p ≤ G.size - 1 →
      (encodeUpTo H G it rid buf (G.size - 1)).getD p default =
        (encodeUpTo H G it rid buf p).getD p default :=
    fun p hp => encodeUpTo_getD_stable H G it rid buf (G.size - 1) p hp
  rw [hstable j (by omega), encodeUpTo_getD_self H G it rid buf j hj1 (by omega)]
  congr 1
  apply createKey_congr
  intro p hp
  have hpj : p < j := hpar j p hp
  by_cases hp0 : p = 0
  · subst hp0
    rw [encodeUpTo_getD_of_out H G it rid buf (j - 1) 0 (Or.inl rfl),
      encodeUpTo_getD_of_out H G it rid buf (G.size - 1) 0 (Or.inl rfl)]
  · rw [encodeUpTo_getD_stable H G it rid buf (j - 1) p (by omega),
      hstable p (by omega)]

theorem encode_getD_zero (H : HasherModel F) (G : GraphModel) (it : Nat) (rid : F)
    (buf : List F) : (encode H G it rid buf).getD 0 default = buf.getD 0 default :=
  encodeUpTo_getD_of_out H G it rid buf (G.size - 1) 0 (Or.inl rfl)

theorem encode_length (H : HasherModel F) (G : GraphModel) (it : Nat) (rid : F)
    (buf : List F) : (encode H G it rid buf).length = buf.length :=
  encodeUpTo_length H G it rid buf (G.size - 1)

theorem decode_block_encode (H : HasherModel F) (G : GraphModel) (it : Nat) (rid : F)
    (buf : List F) (hs : ∀ k x, H.slothDecode k (H.slothEncode k x it) it = x)
    (hpar : ∀ i, ∀ p ∈ G.parents i, p < i) (hlen : buf.length = G.size)
    (j : Nat) (hj1 : 1 ≤ j) (hj2 : j < G.size) :
    decode_block H G it rid (encode H G it rid buf) j = buf.getD j default := by
  unfold decode_block
  rw [encode_getD H G it rid buf hpar hlen j hj1 hj2]
  exact hs _ _

theorem decode_encode (H : HasherModel F) (G : GraphModel) (it : Nat) (rid : F)
    (buf : List F) (hs : ∀ k x, H.slothDecode k (H.slothEncode k x it) it = x)
    (hpar : ∀ i, ∀ p ∈ G.parents i, p < i) (hlen : buf.length = G.size) :
    decode H G it rid (encode H G it rid buf) = buf := by
  apply List.ext_getElem
  · simp [decode, hlen]
  · intro i h1 h2
    have hiN : i < G.size := by simpa [decode] using h1
    unfold decode
    rw [List.getElem_map, List.getElem_range]
    by_cases hi0 : i = 0
    · subst hi0
      rw [if_pos rfl, encode_getD_zero H G it rid buf,
        getD_eq_getElem_of_lt buf 0 default h2]
    · rw [if_neg hi0,
        decode_block_encode H G it rid buf hs hpar hlen i (by omega) hiN,
        getD_eq_getElem_of_lt buf i default h2]

theorem intHasher_sloth_inv : ∀ (k x : Int) (it : Nat),
    intHasher.slothDecode k (intHasher.slothEncode k x it) it = x := by
  intro k x it
  simp only [intHasher]
  ring

theorem toyGraph2_par : ∀ i, ∀ p ∈ toyGraph2.parents i, p < i := by
  intro i p hp
  by_cases h1 : i = 1
  · subst h1
    simp [toyGraph2] at hp
    omega
  · simp [toyGraph2, h1] at hp

theorem toyGraph3_par : ∀ i, ∀ p ∈ toyGraph3.parents i, p < i := by
  intro i p hp
  by_cases h1 : i = 1
  · subst h1
    simp [toyGraph3] at hp
    omega
  · by_cases h2 : i = 2
    · subst h2
      simp [toyGraph3, h1] at hp
      omega
    · simp [toyGraph3, h1, h2] at hp

/-! ## C1: extract_all inverts replicate -/

/-- C1: for every `pp = setup(SetupParams)` (the graph being produced by the
generic graph constructor `Gnew`), every replica id, and every data buffer of
`N` canonical blocks (one domain element per L-byte block), if the buffer is
replicated in place then `extract_all` on the mutated buffer returns exactly
the original data.  The sloth invertibility contract and the spec's parent
invariant are hypotheses; `replicate` on such a buffer always succeeds in the
model (its only failure modes, wrong byte length and non-canonical blocks, are
excluded by the domain-level representation). -/
theorem c1_extract_all_roundtrip (H : HasherModel F)
    (Gnew : Nat → Nat → Nat → List Nat → GraphModel) (sp : SetupParams)
    (replica_id : F) (data : List F)
    (hs : ∀ k x, H.slothDecode k (H.slothEncode k x sp.sloth_iter) sp.sloth_iter = x)
    (hpar : ∀ i, ∀ p ∈ (setup Gnew sp).graph.parents i, p < i)
    (hlen : data.length = (setup Gnew sp).graph.size) :
    extract_all H (setup Gnew sp) replica_id
      (replicate H (setup Gnew sp) replica_id data).buf = data := by
  exact decode_encode H (setup Gnew sp).graph sp.sloth_iter replica_id data hs hpar hlen

/-- Witness for C1: the three-node chain graph over the `Int` hasher, with
data `[2, 5, 11]` and replica id 3. -/
theorem c1_extract_all_roundtrip_witness :
    ([2, 5, 11] : List Int).length = (setup (fun _ _ _ _ => toyGraph3) toySP3).graph.size ∧
      extract_all intHasher (setup (fun _ _ _ _ => toyGraph3) toySP3) 3
        (replicate intHasher (setup (fun _ _ _ _ => toyGraph3) toySP3) 3 [2, 5, 11]).buf =
        [2, 5, 11] := by
  refine ⟨by decide, ?_⟩
  exact c1_extract_all_roundtrip intHasher (fun _ _ _ _ => toyGraph3) toySP3 3 [2, 5, 11]
    (fun k x => intHasher_sloth_inv k x toySP3.sloth_iter) toyGraph3_par (by decide)

omit [Inhabited F] in
theorem verifyStep_eq_stepChecks [DecidableEq F] (H : HasherModel F) (pp : PublicParams)
    (pubIn : PublicInputs F) (proof : Proof F) (i : Nat) (nd rn : DataProof F)
    (rp : List (Nat × DataProof F)) (hnd : proof.nodes[i]? = some nd)
    (hrn : proof.replica_nodes[i]? = some rn) (hrp : proof.replica_parents[i]? = some rp) :
    verifyStep H pp pubIn proof i =
      stepChecks H pp pubIn.replica_id (pubIn.challenges.getD i 0) nd rn rp := by
  unfold verifyStep stepChecks
  simp only [hnd, hrn, hrp]

omit [Inhabited F] in
set_option maxHeartbeats 1000000 in
theorem verifyStep_not_ok_true [DecidableEq F] (H : HasherModel F) (pp : PublicParams)
    (pubIn : PublicInputs F) (proof : Proof F) (i : Nat) :
    verifyStep H pp pubIn proof i ≠ some (.ok true) := by
  intro hcontra
  unfold verifyStep at hcontra
  simp only [ge_iff_le] at hcontra
  repeat' split at hcontra
  all_goals simp at hcontra

omit [Inhabited F] in
set_option maxHeartbeats 1000000 in
theorem verifyStep_some_cases [DecidableEq F] (H : HasherModel F) (pp : PublicParams)
    (pubIn : PublicInputs F) (proof : Proof F) (i : Nat) (r : RustResult Bool)
    (h : verifyStep H pp pubIn proof i = some r) :
    r = .ok false ∨ r = .panic .indexOob ∨ r = .panic .assertZero := by
  unfold verifyStep at h
  simp only [ge_iff_le] at h
  repeat' split at h
  all_goals first
    | (injection h with h; rw [← h]; simp)
    | simp at h

omit [Inhabited F] in
set_option maxHeartbeats 1000000 in
theorem stepChecks_not_panic [DecidableEq F] (H : HasherModel F) (pp : PublicParams)
    (rid : F) (c : Nat) (nd rn : DataProof F) (rp : List (Nat × DataProof F))
    (hnz : c % pp.graph.size ≠ 0) (k : PanicKind) :
    stepChecks H pp rid c nd rn rp ≠ some (.panic k) := by
  unfold stepChecks
  split_ifs <;> simp_all

omit [Inhabited F] in
theorem stepChecks_of_range [DecidableEq F] (H : HasherModel F) (pp : PublicParams)
    (rid : F) (c : Nat) (nd rn : DataProof F) (rp : List (Nat × DataProof F))
    (h : c ≥ pp.graph.size) : stepChecks H pp rid c nd rn rp = some (.ok false) := by
  unfold stepChecks
  rw [if_pos h]

omit [Inhabited F] in
set_option maxHeartbeats 1000000 in
theorem stepChecks_none_inv [DecidableEq F] (H : HasherModel F) (pp : PublicParams)
    (rid : F) (c : Nat) (nd rn : DataProof F) (rp : List (Nat × DataProof F))
    (h : stepChecks H pp rid c nd rn rp = none) :
    c < pp.graph.size ∧ nd.proves_challenge c = true ∧ rn.proves_challenge c = true ∧
      rp.length = (pp.graph.parents c).length ∧
      ((rp.zip (pp.graph.parents c)).all fun pe => pe.1.1 == pe.2) = true ∧
      c % pp.graph.size ≠ 0 ∧
      rn.proof.validate H (c % pp.graph.size) = true ∧
      (rp.all fun pe => pe.2.proof.validate H pe.1) = true ∧
      unsealedOf H pp rid rn rp = nd.data ∧
      nd.proof.validate_data H (unsealedOf H pp rid rn rp) = true := by
  unfold stepChecks at h
  split_ifs at h with h1 h2 h3 h4 h5 h6 h7 h8 h9 h10
  refine ⟨by omega, by simpa using h2, by simpa using h3, by omega, by simpa using h5, h6,
    by simpa using h7, by simpa using h8, by simpa using h9, by simpa using h10⟩

omit [Inhabited F] in
set_option maxHeartbeats 1000000 in
theorem stepChecks_all_pass [DecidableEq F] (H : HasherModel F) (pp : PublicParams)
    (rid : F) (c : Nat) (nd rn : DataProof F) (rp : List (Nat × DataProof F))
    (h1 : c < pp.graph.size) (h2 : nd.proves_challenge c = true)
    (h3 : rn.proves_challenge c = true) (h4 : rp.length = (pp.graph.parents c).length)
    (h5 : ((rp.zip (pp.graph.parents c)).all fun pe => pe.1.1 == pe.2) = true)
    (h6 : c % pp.graph.size ≠ 0)
    (h7 : rn.proof.validate H (c % pp.graph.size) = true)
    (h8 : (rp.all fun pe => pe.2.proof.validate H pe.1) = true)
    (h9 : unsealedOf H pp rid rn rp = nd.data)
    (h10 : nd.proof.validate_data H (unsealedOf H pp rid rn rp) = true) :
    stepChecks H pp rid c nd rn rp = none := by
  unfold stepChecks
  rw [if_neg (by omega), if_neg (by simp [h2]), if_neg (by simp [h3]),
    if_neg (by omega), if_neg (by simp [h5]), if_neg h6, if_neg (by simp [h7]),
    if_neg (by simp [h8]), if_neg (by simp [h9]), if_neg (by simp [h10])]

/-! ## The verify loop -/

omit [Inhabited F] in
theorem verifyAux_cons [DecidableEq F] (H : HasherModel F) (pp : PublicParams)
    (pubIn : PublicInputs F) (proof : Proof F) (i : Nat) (is : List Nat) :
    verifyAux H pp pubIn proof (i :: is) =
      match verifyStep H pp pubIn proof i with
      | none => verifyAux H pp pubIn proof is
      | some r => r := rfl

omit [Inhabited F] in
theorem verifyAux_all_none [DecidableEq F] (H : HasherModel F) (pp : PublicParams)
    (pubIn : PublicInputs F) (proof : Proof F) :
    ∀ l : List Nat, (∀ i ∈ l, verifyStep H pp pubIn proof i = none) →
      verifyAux H pp pubIn proof l = .ok true := by
  intro l
  induction l with
  | nil => intro _; rfl
  | cons i is ih =>
    intro h
    rw [verifyAux_cons, h i (List.mem_cons_self i is)]
    exact ih fun j hj => h j (List.mem_cons_of_mem i hj)

omit [Inhabited F] in
theorem verifyAux_ok_true_imp [DecidableEq F] (H : HasherModel F) (pp : PublicParams)
    (pubIn : PublicInputs F) (proof : Proof F) :
    ∀ l : List Nat, verifyAux H pp pubIn proof l = .ok true →
      ∀ i ∈ l, verifyStep H pp pubIn proof i = none := by
  intro l
  induction l with
  | nil => intro _ i hi; exact absurd hi (List.not_mem_nil i)
  | cons j js ih =>
    intro h i hi
    rcases List.mem_cons.mp hi with rfl | hi'
    · cases hstep : verifyStep H pp pubIn proof i with
      | none => rfl
      | some r =>
        rw [verifyAux_cons, hstep] at h
        exact absurd (h ▸ hstep) (verifyStep_not_ok_true H pp pubIn proof i)
    · cases hstep : verifyStep H pp pubIn proof j with
      | none =>
        rw [verifyAux_cons, hstep] at h
        exact ih h i hi'
      | some r =>
        rw [verifyAux_cons, hstep] at h
        exact absurd (h ▸ hstep) (verifyStep_not_ok_true H pp pubIn proof j)

omit [Inhabited F] in
theorem verifyAux_append_none [DecidableEq F] (H : HasherModel F) (pp : PublicParams)
    (pubIn : PublicInputs F) (proof : Proof F) :
    ∀ l1 l2 : List Nat, (∀ i ∈ l1, verifyStep H pp pubIn proof i = none) →
      verifyAux H pp pubIn proof (l1 ++ l2) = verifyAux H pp pubIn proof l2 := by
  intro l1
  induction l1 with
  | nil => intro l2 _; rfl
  | cons j js ih =>
    intro l2 h
    rw [List.cons_append, verifyAux_cons, h j (List.mem_cons_self j js)]
    exact ih l2 fun i hi => h i (List.mem_cons_of_mem j hi)

omit [Inhabited F] in
theorem verifyAux_no_panic [DecidableEq F] (H : HasherModel F) (pp : PublicParams)
    (pubIn : PublicInputs F) (proof : Proof F) :
    ∀ l : List Nat, (∀ i ∈ l, ∀ k, verifyStep H pp pubIn proof i ≠ some (.panic k)) →
      verifyAux H pp pubIn proof l = .ok true ∨ verifyAux H pp pubIn proof l = .ok false := by
  intro l
  induction l with
  | nil => intro _; exact Or.inl rfl
  | cons j js ih =>
    intro h
    rw [verifyAux_cons]
    cases hstep : verifyStep H pp pubIn proof j with
    | none => exact ih fun i hi k => h i (List.mem_cons_of_mem j hi) k
    | some r =>
      rcases verifyStep_some_cases H pp pubIn proof j r hstep with rfl | rfl | rfl
      · exact Or.inr rfl
      · exact absurd hstep (h j (List.mem_cons_self j js) .indexOob)
      · exact absurd hstep (h j (List.mem_cons_self j js) .assertZero)

theorem range_split (n i : Nat) (h : i ≤ n) :
    List.range n = List.range' 0 i ++ List.range' i (n - i) := by
  have hh := List.range'_append 0 i (n - i) 1
  simp only [Nat.zero_add, Nat.one_mul] at hh
  conv_lhs => rw [show n = n - i + i from by omega, List.range_eq_range']
  rw [← hh]

omit [Inhabited F] in
theorem verify_ok_true_imp [DecidableEq F] (H : HasherModel F) (pp : PublicParams)
    (pubIn : PublicInputs F) (proof : Proof F) (h : verify H pp pubIn proof = .ok true) :
    ∀ i < pubIn.challenges.length, verifyStep H pp pubIn proof i = none := by
  intro i hi
  exact verifyAux_ok_true_imp H pp pubIn proof (List.range pubIn.challenges.length) h i
    (List.mem_range.mpr hi)

omit [Inhabited F] in
theorem verify_early_return [DecidableEq F] (H : HasherModel F) (pp : PublicParams)
    (pubIn : PublicInputs F) (proof : Proof F) (i : Nat) (r : RustResult Bool)
    (hi : i < pubIn.challenges.length)
    (hprev : ∀ j < i, verifyStep H pp pubIn proof j = none)
    (hstep : verifyStep H pp pubIn proof i = some r) :
    verify H pp pubIn proof = r := by
  unfold verify
  rw [range_split pubIn.challenges.length i (by omega),
    verifyAux_append_none H pp pubIn proof _ _ (fun j hj => hprev j (by
      have := List.mem_range'_1.mp hj
      omega))]
  obtain ⟨m, hm⟩ : ∃ m, pubIn.challenges.length - i = m + 1 :=
    ⟨pubIn.challenges.length - i - 1, by omega⟩
  rw [hm, List.range'_succ i m 1, verifyAux_cons, hstep]

theorem collectParents_eq (H : HasherModel F) (replica tree_r : List F) :
    ∀ ps : List Nat, (∀ p ∈ ps, p < replica.length) →
      collectParents H replica tree_r ps =
        .ok (ps.map fun p => (p, honestReplicaNode H replica tree_r p)) := by
  intro ps
  induction ps with
  | nil => intro _; rfl
  | cons p ps ih =>
    intro h
    unfold collectParents
    simp only [data_at_node]
    rw [if_pos (h p (List.mem_cons_self p ps))]
    rw [ih fun q hq => h q (List.mem_cons_of_mem p hq)]
    rfl

theorem proveOne_eq (H : HasherModel F) (pp : PublicParams) (rid : F)
    (replica tree_d tree_r : List F) (c : Nat)
    (hc0 : 0 < c) (hcN : c < pp.graph.size) (hrep : replica.length = pp.graph.size)
    (hpar : ∀ p ∈ pp.graph.parents c, p < c) :
    proveOne H pp rid replica tree_d tree_r c =
      .ok (honestReplicaNode H replica tree_r c,
        honestParents H pp.graph replica tree_r c,
        honestDataNode H pp rid replica tree_d c) := by
  unfold proveOne
  rw [Nat.mod_eq_of_lt hcN]
  rw [if_neg (by omega)]
  simp only [data_at_node]
  rw [if_pos (by omega)]
  rw [collectParents_eq H replica tree_r (pp.graph.parents c)
    (fun p hp => by have := hpar p hp; omega)]
  rfl

theorem proveAux_eq (H : HasherModel F) (pp : PublicParams) (rid : F)
    (replica tree_d tree_r : List F)
    (hrep : replica.length = pp.graph.size)
    (hpar : ∀ i, ∀ p ∈ pp.graph.parents i, p < i) :
    ∀ chs : List Nat, (∀ c ∈ chs, 0 < c ∧ c < pp.graph.size) →
      proveAux H pp rid replica tree_d tree_r chs =
        .ok (chs.map (honestReplicaNode H replica tree_r),
          chs.map (honestParents H pp.graph replica tree_r),
          chs.map (honestDataNode H pp rid replica tree_d)) := by
  intro chs
  induction chs with
  | nil => intro _; rfl
  | cons c cs ih =>
    intro h
    unfold proveAux
    rw [proveOne_eq H pp rid replica tree_d tree_r c (h c (List.mem_cons_self c cs)).1
      (h c (List.mem_cons_self c cs)).2 hrep (hpar c)]
    rw [ih fun d hd => h d (List.mem_cons_of_mem c hd)]
    rfl

/-- On an in-range, nonzero challenge list with a full-size replica, `prove`
succeeds and returns exactly the honest proof. -/
theorem prove_eq_honest (H : HasherModel F) (pp : PublicParams) (pubIn : PublicInputs F)
    (priv : PrivateInputs F)
    (hch : ∀ c ∈ pubIn.challenges, 0 < c ∧ c < pp.graph.size)
    (hrep : priv.replica.length = pp.graph.size)
    (hpar : ∀ i, ∀ p ∈ pp.graph.parents i, p < i) :
    prove H pp pubIn priv =
      .ok (honestProof H pp pubIn.replica_id priv.replica priv.aux.tree_d priv.aux.tree_r
        pubIn.challenges) := by
  unfold prove
  rw [proveAux_eq H pp pubIn.replica_id priv.replica priv.aux.tree_d priv.aux.tree_r
    hrep hpar pubIn.challenges hch]
  rfl

theorem getElem?_map_getD {α β : Type} (f : α → β) (l : List α) (i : Nat) (d : α)
    (h : i < l.length) : (l.map f)[i]? = some (f (l.getD i d)) := by
  rw [List.getElem?_map, getElem?_eq_some_getD l i d h]
  rfl

theorem zip_all_fst_self {β : Type} (g : Nat → β) :
    ∀ ps : List Nat,
      (((ps.map fun p => (p, g p)).zip ps).all fun pe => pe.1.1 == pe.2) = true := by
  intro ps
  induction ps with
  | nil => rfl
  | cons p ps ih =>
    simp only [List.map_cons, List.zip_cons_cons, List.all_cons, ih]
    simp

/-- Every iteration of `verify` falls through on the honest proof, as long as
the challenge the verifier uses at this position agrees with the prove-time
one and is in range and nonzero. -/
theorem honest_step_none [DecidableEq F] (H : HasherModel F) (pp : PublicParams) (rid : F)
    (data : List F) (t : Option (Tau F)) (chs chs' : List Nat) (i : Nat)
    (hs : ∀ k x, H.slothDecode k (H.slothEncode k x pp.sloth_iter) pp.sloth_iter = x)
    (hpar : ∀ j, ∀ p ∈ pp.graph.parents j, p < j)
    (hlen : data.length = pp.graph.size)
    (hi : i < chs.length)
    (heq : chs'.getD i 0 = chs.getD i 0)
    (hc0 : 0 < chs.getD i 0) (hcN : chs.getD i 0 < pp.graph.size) :
    verifyStep H pp { replica_id := rid, challenges := chs', tau := t }
      (honestProof H pp rid (encode H pp.graph pp.sloth_iter rid data) data
        (encode H pp.graph pp.sloth_iter rid data) chs) i = none := by
  have hreplen : (encode H pp.graph pp.sloth_iter rid data).length = pp.graph.size := by
    rw [encode_length]; exact hlen
  set replica := encode H pp.graph pp.sloth_iter rid data with hrepl
  set c := chs.getD i 0 with hc
  have hnd : (honestProof H pp rid replica data replica chs).nodes[i]? =
      some (honestDataNode H pp rid replica data c) :=
    getElem?_map_getD _ chs i 0 hi
  have hrn : (honestProof H pp rid replica data replica chs).replica_nodes[i]? =
      some (honestReplicaNode H replica replica c) :=
    getElem?_map_getD _ chs i 0 hi
  have hrp : (honestProof H pp rid replica data replica chs).replica_parents[i]? =
      some (honestParents H pp.graph replica replica c) :=
    getElem?_map_getD _ chs i 0 hi
  rw [verifyStep_eq_stepChecks H pp _ _ i _ _ _ hnd hrn hrp]
  have hgetd : ({ replica_id := rid, challenges := chs', tau := t } :
      PublicInputs F).challenges.getD i 0 = c := heq
  rw [hgetd]
  have hmod : c % pp.graph.size = c := Nat.mod_eq_of_lt hcN
  have hunsealed : unsealedOf H pp rid (honestReplicaNode H replica replica c)
      (honestParents H pp.graph replica replica c) =
      (honestDataNode H pp rid replica data c).data := by
    simp only [unsealedOf, keyInputOf, honestParents, List.foldl_map, honestReplicaNode,
      honestDataNode, decode_block, createKey]
  apply stepChecks_all_pass
  · exact hcN
  · simp only [DataProof.proves_challenge, honestDataNode]
    exact genProof_proves_self H data c (by omega)
  · simp only [DataProof.proves_challenge, honestReplicaNode]
    exact genProof_proves_self H replica c (by omega)
  · simp [honestParents]
  · exact zip_all_fst_self _ (pp.graph.parents c)
  · omega
  · simp only [honestReplicaNode, hmod]
    exact genProof_validate H replica c (by omega)
  · rw [List.all_eq_true]
    intro pe hpe
    simp only [honestParents, List.mem_map] at hpe
    obtain ⟨p, hp, rfl⟩ := hpe
    have hplt : p < c := hpar c p hp
    simp only [honestReplicaNode]
    exact genProof_validate H replica p (by omega)
  · exact hunsealed
  · rw [hunsealed]
    have hdecoded : (honestDataNode H pp rid replica data c).data = data.getD c default := by
      simp only [honestDataNode]
      exact decode_block_encode H pp.graph pp.sloth_iter rid data hs hpar hlen c
        (by omega) hcN
    rw [hdecoded]
    simp only [honestDataNode]
    exact genProof_validate_data H data c (by omega)

/-! ## C2: completeness of prove/verify -/

/-- C2: for every public parameters, canonical plaintext buffer of the graph's
size, replica id, and challenge list whose entries all satisfy `0 < c < N`,
after replication `prove` succeeds, and `verify` accepts the proof it produces
on the same public inputs.  The sloth inverse contract and the graph parent
invariant of the spec are hypotheses. -/
theorem c2_prove_verify_completeness [DecidableEq F] (H : HasherModel F) (pp : PublicParams)
    (rid : F) (data : List F) (chs : List Nat)
    (hs : ∀ k x, H.slothDecode k (H.slothEncode k x pp.sloth_iter) pp.sloth_iter = x)
    (hpar : ∀ j, ∀ p ∈ pp.graph.parents j, p < j)
    (hlen : data.length = pp.graph.size)
    (hch : ∀ c ∈ chs, 0 < c ∧ c < pp.graph.size) :
    ∃ pr : Proof F,
      prove H pp { replica_id := rid, challenges := chs, tau := some (replicate H pp rid data).tau }
        { replica := (replicate H pp rid data).buf, aux := (replicate H pp rid data).aux } =
        .ok pr ∧
      verify H pp { replica_id := rid, challenges := chs, tau := some (replicate H pp rid data).tau }
        pr = .ok true := by
  have hreplen : (replicate H pp rid data).buf.length = pp.graph.size := by
    show (encode H pp.graph pp.sloth_iter rid data).length = pp.graph.size
    rw [encode_length]; exact hlen
  refine ⟨honestProof H pp rid (replicate H pp rid data).buf data (replicate H pp rid data).buf
    chs, ?_, ?_⟩
  · exact prove_eq_honest H pp _ _ hch hreplen hpar
  · unfold verify
    apply verifyAux_all_none
    intro i hi
    have hilen : i < chs.length := List.mem_range.mp hi
    have hcin : chs.getD i 0 ∈ chs := by
      rw [getD_eq_getElem_of_lt chs i 0 hilen]
      exact List.getElem_mem hilen
    exact honest_step_none H pp rid data _ chs chs i hs hpar hlen hilen rfl
      (hch _ hcin).1 (hch _ hcin).2

/-- Witness for C2: the three-node chain over the `Int` hasher, challenges
`[1, 2]`. -/
theorem c2_prove_verify_completeness_witness :
    (∀ c ∈ [1, 2], 0 < c ∧ c < toyPP3.graph.size) ∧
      (∃ pr : Proof Int,
        prove intHasher toyPP3
          { replica_id := 3, challenges := [1, 2],
            tau := some (replicate intHasher toyPP3 3 [2, 5, 11]).tau }
          { replica := (replicate intHasher toyPP3 3 [2, 5, 11]).buf,
            aux := (replicate intHasher toyPP3 3 [2, 5, 11]).aux } = .ok pr ∧
        verify intHasher toyPP3
          { replica_id := 3, challenges := [1, 2],
            tau := some (replicate intHasher toyPP3 3 [2, 5, 11]).tau } pr = .ok true) := by
  refine ⟨by decide, ?_⟩
  exact c2_prove_verify_completeness intHasher toyPP3 3 [2, 5, 11] [1, 2]
    (fun k x => intHasher_sloth_inv k x toyPP3.sloth_iter) toyGraph3_par (by decide) (by decide)

/-! ## Failure paths of one verify iteration -/

omit [Inhabited F] in
set_option maxHeartbeats 1000000 in
theorem stepChecks_fail_node_proves [DecidableEq F] (H : HasherModel F) (pp : PublicParams)
    (rid : F) (c : Nat) (nd rn : DataProof F) (rp : List (Nat × DataProof F))
    (h1 : c < pp.graph.size) (h2 : nd.proves_challenge c = false) :
    stepChecks H pp rid c nd rn rp = some (.ok false) := by
  unfold stepChecks
  rw [if_neg (by omega), if_pos h2]

omit [Inhabited F] in
set_option maxHeartbeats 1000000 in
theorem stepChecks_fail_tail [DecidableEq F] (H : HasherModel F) (pp : PublicParams)
    (rid : F) (c : Nat) (nd rn : DataProof F) (rp : List (Nat × DataProof F))
    (h1 : c < pp.graph.size) (h2 : nd.proves_challenge c = true)
    (h3 : rn.proves_challenge c = true) (h4 : rp.length = (pp.graph.parents c).length)
    (h5 : ((rp.zip (pp.graph.parents c)).all fun pe => pe.1.1 == pe.2) = true)
    (h6 : c % pp.graph.size ≠ 0)
    (h7 : rn.proof.validate H (c % pp.graph.size) = true)
    (h8 : (rp.all fun pe => pe.2.proof.validate H pe.1) = true)
    (h9 : unsealedOf H pp rid rn rp ≠ nd.data ∨
      nd.proof.validate_data H (unsealedOf H pp rid rn rp) = false) :
    stepChecks H pp rid c nd rn rp = some (.ok false) := by
  unfold stepChecks
  rw [if_neg (by omega), if_neg (by simp [h2]), if_neg (by simp [h3]),
    if_neg (by omega), if_neg (by simp [h5]), if_neg h6, if_neg (by simp [h7]),
    if_neg (by simp [h8])]
  by_cases hu : unsealedOf H pp rid rn rp ≠ nd.data
  · rw [if_pos hu]
  · rw [if_neg hu]
    rcases h9 with h | h
    · exact absurd h hu
    · rw [if_pos h]

/-! ## C10: the empty challenge list verifies anything -/

omit [Inhabited F] in
/-- C10: `verify` with an empty challenge list returns `Ok(true)` for every
proof, tau, and replica id: the per-challenge loop body never runs, so no
structural or cryptographic validation of the supplied proof happens at all. -/
theorem c10_empty_challenges_verify_true [DecidableEq F] (H : HasherModel F)
    (pp : PublicParams) (rid : F) (t : Option (Tau F)) (proof : Proof F) :
    verify H pp { replica_id := rid, challenges := [], tau := t } proof = .ok true := rfl

/-! ## C8: single-node extraction -/

/-- C8: for every `i` in `[1, N)`, `extract` on the replicated buffer returns
exactly node `i` of the plaintext, and node 0 of the buffer is unchanged by
replication. -/
theorem c8_extract_single_node (H : HasherModel F) (pp : PublicParams) (rid : F)
    (data : List F)
    (hs : ∀ k x, H.slothDecode k (H.slothEncode k x pp.sloth_iter) pp.sloth_iter = x)
    (hpar : ∀ j, ∀ p ∈ pp.graph.parents j, p < j)
    (hlen : data.length = pp.graph.size) :
    (∀ i, 1 ≤ i → i < pp.graph.size →
      extract H pp rid (replicate H pp rid data).buf i = data.getD i default) ∧
    (replicate H pp rid data).buf.getD 0 default = data.getD 0 default := by
  constructor
  · intro i h1 h2
    exact decode_block_encode H pp.graph pp.sloth_iter rid data hs hpar hlen i h1 h2
  · exact encode_getD_zero H pp.graph pp.sloth_iter rid data

/-- Witness for C8: three-node chain, extraction of node 1 and invariance of
node 0. -/
theorem c8_extract_single_node_witness :
    ([2, 5, 11] : List Int).length = toyPP3.graph.size ∧
      extract intHasher toyPP3 3 (replicate intHasher toyPP3 3 [2, 5, 11]).buf 1 = 5 ∧
      (replicate intHasher toyPP3 3 [2, 5, 11]).buf.getD 0 default = 2 := by
  have h := c8_extract_single_node intHasher toyPP3 3 [2, 5, 11]
    (fun k x => intHasher_sloth_inv k x toyPP3.sloth_iter) toyGraph3_par (by decide)
  refine ⟨by decide, ?_, ?_⟩
  · rw [h.1 1 (by decide) (by decide)]
    decide
  · rw [h.2]
    decide

theorem foldl_append_eq {α β : Type} (f : α → List β) :
    ∀ (l : List α) (init : List β),
      l.foldl (fun acc x => acc ++ f x) init =
        init ++ (l.map f).foldr (fun a b => a ++ b) [] := by
  intro l
  induction l with
  | nil => intro init; simp
  | cons x xs ih =>
    intro init
    simp only [List.foldl_cons, List.map_cons, List.foldr_cons]
    rw [ih (init ++ f x), List.append_assoc]

/-! ## C3: the KDF/sloth-decode consistency check -/

omit [Inhabited F] in
/-- C3: at a challenge position `i` whose structural and Merkle checks pass
(and all earlier positions fall through), `verify` rebuilds the key input as
the replica-id bytes followed by the bytes of each claimed parent data value in
proof order, derives the key with `H::kdf` at `pp.graph.degree()`, sloth-decodes
the claimed replica value, and returns `Ok(false)` whenever the result differs
from `nodes[i].data`, and likewise whenever `validate_data` rejects it. -/
theorem c3_kdf_unsealed_check [DecidableEq F] (H : HasherModel F) (pp : PublicParams)
    (pubIn : PublicInputs F) (proof : Proof F) (i : Nat) (nd rn : DataProof F)
    (rp : List (Nat × DataProof F))
    (hi : i < pubIn.challenges.length)
    (hprev : ∀ j < i, verifyStep H pp pubIn proof j = none)
    (hnd : proof.nodes[i]? = some nd)
    (hrn : proof.replica_nodes[i]? = some rn)
    (hrp : proof.replica_parents[i]? = some rp)
    (h1 : pubIn.challenges.getD i 0 < pp.graph.size)
    (h2 : nd.proves_challenge (pubIn.challenges.getD i 0) = true)
    (h3 : rn.proves_challenge (pubIn.challenges.getD i 0) = true)
    (h4 : rp.length = (pp.graph.parents (pubIn.challenges.getD i 0)).length)
    (h5 : ((rp.zip (pp.graph.parents (pubIn.challenges.getD i 0))).all
      fun pe => pe.1.1 == pe.2) = true)
    (h6 : pubIn.challenges.getD i 0 % pp.graph.size ≠ 0)
    (h7 : rn.proof.validate H (pubIn.challenges.getD i 0 % pp.graph.size) = true)
    (h8 : (rp.all fun pe => pe.2.proof.validate H pe.1) = true) :
    keyInputOf H pubIn.replica_id rp =
        H.intoBytes pubIn.replica_id ++
          (rp.map fun pe => H.intoBytes pe.2.data).foldr (fun a b => a ++ b) [] ∧
    unsealedOf H pp pubIn.replica_id rn rp =
        H.slothDecode (H.kdf (keyInputOf H pubIn.replica_id rp) pp.graph.degree) rn.data
          pp.sloth_iter ∧
    (unsealedOf H pp pubIn.replica_id rn rp ≠ nd.data →
      verify H pp pubIn proof = .ok false) ∧
    (nd.proof.validate_data H (unsealedOf H pp pubIn.replica_id rn rp) = false →
      verify H pp pubIn proof = .ok false) := by
  refine ⟨?_, rfl, ?_, ?_⟩
  · exact foldl_append_eq (fun pe => H.intoBytes pe.2.data) rp (H.intoBytes pubIn.replica_id)
  · intro hmm
    apply verify_early_return H pp pubIn proof i _ hi hprev
    rw [verifyStep_eq_stepChecks H pp pubIn proof i nd rn rp hnd hrn hrp]
    exact stepChecks_fail_tail H pp pubIn.replica_id _ nd rn rp h1 h2 h3 h4 h5 h6 h7 h8
      (Or.inl hmm)
  · intro hvd
    apply verify_early_return H pp pubIn proof i _ hi hprev
    rw [verifyStep_eq_stepChecks H pp pubIn proof i nd rn rp hnd hrn hrp]
    exact stepChecks_fail_tail H pp pubIn.replica_id _ nd rn rp h1 h2 h3 h4 h5 h6 h7 h8
      (Or.inr hvd)

/-- Witness for C3: the tampered two-node proof; all structural and Merkle
checks pass, the recomputed unsealed value differs from the tampered node
value, and verify indeed returns `Ok(false)`. -/
theorem c3_kdf_unsealed_check_witness :
    unsealedOf intHasher toyPP2 5 (honestReplicaNode intHasher repl2A.buf repl2A.buf 1)
        (honestParents intHasher toyGraph2 repl2A.buf repl2A.buf 1) ≠ c3nd.data ∧
    verify intHasher toyPP2 { replica_id := 5, challenges := [1], tau := some repl2A.tau }
        c3proof = .ok false := by
  have h := c3_kdf_unsealed_check intHasher toyPP2
    { replica_id := 5, challenges := [1], tau := some repl2A.tau } c3proof 0
    c3nd (honestReplicaNode intHasher repl2A.buf repl2A.buf 1)
    (honestParents intHasher toyGraph2 repl2A.buf repl2A.buf 1)
    (by decide) (fun j hj => absurd hj (by omega))
    (by decide) (by decide) (by decide) (by decide) (by decide) (by decide)
    (by decide) (by decide) (by decide) (by decide) (by decide)
  exact ⟨by decide, h.2.2.1 (by decide)⟩

/-! ## C6: the range check -/

omit [Inhabited F] in
set_option maxHeartbeats 400000 in
theorem verifyStep_range_false [DecidableEq F] (H : HasherModel F) (pp : PublicParams)
    (pubIn : PublicInputs F) (proof : Proof F) (i : Nat)
    (hc : pubIn.challenges.getD i 0 ≥ pp.graph.size) :
    verifyStep H pp pubIn proof i = some (.ok false) := by
  unfold verifyStep
  rw [if_pos hc]

omit [Inhabited F] in
/-- C6 (amended): at any position `i` whose challenge is out of range, the
iteration returns `Ok(false)` at once — before the `proves_challenge`, parent,
Merkle and KDF checks, and before any indexing of the proof vectors — and the
whole call returns `Ok(false)` provided every earlier position falls through.
(The original claim, quantified over every proof, is refuted by
`c6_range_check_soft_false_counterexample`: an earlier position may panic on a
short proof vector before the out-of-range challenge is reached.) -/
theorem c6_range_check_soft_false [DecidableEq F] (H : HasherModel F) (pp : PublicParams)
    (pubIn : PublicInputs F) (proof : Proof F) (i : Nat)
    (hi : i < pubIn.challenges.length)
    (hc : pubIn.challenges.getD i 0 ≥ pp.graph.size) :
    verifyStep H pp pubIn proof i = some (.ok false) ∧
      ((∀ j < i, verifyStep H pp pubIn proof j = none) →
        verify H pp pubIn proof = .ok false) := by
  refine ⟨verifyStep_range_false H pp pubIn proof i hc, fun hprev => ?_⟩
  exact verify_early_return H pp pubIn proof i _ hi hprev
    (verifyStep_range_false H pp pubIn proof i hc)

/-- Counterexample to C6 as stated: challenges `[1, 5]` on the three-node graph
contain the out-of-range challenge 5, yet with an empty proof `verify` panics
on the vector indexing at position 0 instead of returning `Ok(false)`. -/
theorem c6_range_check_soft_false_counterexample :
    (5 : Nat) ≥ toyPP3.graph.size ∧
      verify intHasher toyPP3 { replica_id := 3, challenges := [1, 5], tau := none }
        emptyProofInt = .panic .indexOob := by decide

/-- Witness for C6: position 1 of challenges `[1, 5]` is out of range on the
three-node graph; its iteration returns `Ok(false)` immediately, and since
position 0 of the honest proof falls through, the call returns `Ok(false)`. -/
theorem c6_range_check_soft_false_witness :
    verifyStep intHasher toyPP3 { replica_id := 3, challenges := [1, 5], tau := none }
        honest3 1 = some (.ok false) ∧
      ((∀ j < 1, verifyStep intHasher toyPP3
          { replica_id := 3, challenges := [1, 5], tau := none } honest3 j = none) →
        verify intHasher toyPP3 { replica_id := 3, challenges := [1, 5], tau := none }
          honest3 = .ok false) := by
  exact c6_range_check_soft_false intHasher toyPP3
    { replica_id := 3, challenges := [1, 5], tau := none } honest3 1 (by decide) (by decide)

/-! ## C7: short proof vectors -/

/-- C7: the code, contrary to the spec, performs no size check on the proof
vectors: verifying the honest single-challenge proof against the challenge list
`[1, 1]` passes position 0 and then panics with an out-of-bounds index at
position 1, instead of raising `SizeMismatch`. -/
theorem c7_short_proof_vectors_panic :
    verify intHasher toyPP2 { replica_id := 5, challenges := [1, 1], tau := some repl2A.tau }
      honest2A = .panic .indexOob := by decide

/-! ## C9: the nonzero-challenge assertions -/

theorem data_at_node_not_panic (buf : List F) (i : Nat) (k : PanicKind) :
    data_at_node buf i ≠ .panic k := by
  unfold data_at_node
  split <;> simp

theorem collectParents_not_panic (H : HasherModel F) (replica tree_r : List F) :
    ∀ ps : List Nat, ∀ k, collectParents H replica tree_r ps ≠ .panic k := by
  intro ps
  induction ps with
  | nil => intro k; simp [collectParents]
  | cons p ps ih =>
    intro k
    unfold collectParents
    cases hd : data_at_node replica p with
    | err e => simp
    | panic k' => exact absurd hd (data_at_node_not_panic replica p k')
    | ok d =>
      cases hc : collectParents H replica tree_r ps with
      | err e => simp
      | panic k' => exact absurd hc (ih k')
      | ok rest => simp

theorem proveOne_not_panic (H : HasherModel F) (pp : PublicParams) (rid : F)
    (replica tree_d tree_r : List F) (c : Nat) (hc : c % pp.graph.size ≠ 0)
    (k : PanicKind) : proveOne H pp rid replica tree_d tree_r c ≠ .panic k := by
  unfold proveOne
  rw [if_neg hc]
  cases hd : data_at_node replica (c % pp.graph.size) with
  | err e => simp
  | panic k' => exact absurd hd (data_at_node_not_panic replica _ k')
  | ok d =>
    cases hcp : collectParents H replica tree_r (pp.graph.parents (c % pp.graph.size)) with
    | err e => simp
    | panic k' => exact absurd hcp (collectParents_not_panic H replica tree_r _ k')
    | ok rps => simp

theorem proveAux_not_panic (H : HasherModel F) (pp : PublicParams) (rid : F)
    (replica tree_d tree_r : List F) :
    ∀ chs : List Nat, (∀ c ∈ chs, c % pp.graph.size ≠ 0) → ∀ k,
      proveAux H pp rid replica tree_d tree_r chs ≠ .panic k := by
  intro chs
  induction chs with
  | nil => intro _ k; simp [proveAux]
  | cons c cs ih =>
    intro h k
    unfold proveAux
    cases h1 : proveOne H pp rid replica tree_d tree_r c with
    | err e => simp
    | panic k' =>
      exact absurd h1 (proveOne_not_panic H pp rid replica tree_d tree_r c
        (h c (List.mem_cons_self c cs)) k')
    | ok v =>
      obtain ⟨rn, rp, nd⟩ := v
      cases h2 : proveAux H pp rid replica tree_d tree_r cs with
      | err e => simp
      | panic k' => exact absurd h2 (ih (fun d hd => h d (List.mem_cons_of_mem c hd)) k')
      | ok vs =>
        obtain ⟨rns, rps, nds⟩ := vs
        simp

theorem prove_not_panic (H : HasherModel F) (pp : PublicParams) (pubIn : PublicInputs F)
    (priv : PrivateInputs F) (hch : ∀ c ∈ pubIn.challenges, c % pp.graph.size ≠ 0)
    (k : PanicKind) : prove H pp pubIn priv ≠ .panic k := by
  unfold prove
  cases h : proveAux H pp pubIn.replica_id priv.replica priv.aux.tree_d priv.aux.tree_r
      pubIn.challenges with
  | err e => simp
  | panic k' =>
    exact absurd h (proveAux_not_panic H pp pubIn.replica_id priv.replica priv.aux.tree_d
      priv.aux.tree_r pubIn.challenges hch k')
  | ok v =>
    obtain ⟨rns, rps, nds⟩ := v
    simp

omit [Inhabited F] in
set_option maxHeartbeats 1000000 in
theorem verifyStep_assertZero_imp [DecidableEq F] (H : HasherModel F) (pp : PublicParams)
    (pubIn : PublicInputs F) (proof : Proof F) (i : Nat)
    (h : verifyStep H pp pubIn proof i = some (.panic .assertZero)) :
    pubIn.challenges.getD i 0 % pp.graph.size = 0 := by
  unfold verifyStep at h
  simp only [ge_iff_le] at h
  repeat' split at h
  all_goals first
    | assumption
    | simp at h

omit [Inhabited F] in
theorem verifyAux_result_mem [DecidableEq F] (H : HasherModel F) (pp : PublicParams)
    (pubIn : PublicInputs F) (proof : Proof F) (r : RustResult Bool) (hr : r ≠ .ok true) :
    ∀ l : List Nat, verifyAux H pp pubIn proof l = r →
      ∃ i ∈ l, verifyStep H pp pubIn proof i = some r := by
  intro l
  induction l with
  | nil => intro h; exact absurd h.symm (by simpa using hr)
  | cons j js ih =>
    intro h
    rw [verifyAux_cons] at h
    cases hstep : verifyStep H pp pubIn proof j with
    | none =>
      rw [hstep] at h
      obtain ⟨i, hi, hs⟩ := ih h
      exact ⟨i, List.mem_cons_of_mem j hi, hs⟩
    | some r' =>
      rw [hstep] at h
      exact ⟨j, List.mem_cons_self j js, h ▸ hstep⟩

omit [Inhabited F] in
theorem verify_not_assertZero [DecidableEq F] (H : HasherModel F) (pp : PublicParams)
    (pubIn : PublicInputs F) (proof : Proof F)
    (hch : ∀ c ∈ pubIn.challenges, c % pp.graph.size ≠ 0) :
    verify H pp pubIn proof ≠ .panic .assertZero := by
  intro h
  obtain ⟨i, hi, hs⟩ := verifyAux_result_mem H pp pubIn proof (.panic .assertZero)
    (by simp) (List.range pubIn.challenges.length) h
  have hilen : i < pubIn.challenges.length := List.mem_range.mp hi
  have hmem : pubIn.challenges.getD i 0 ∈ pubIn.challenges := by
    rw [getD_eq_getElem_of_lt pubIn.challenges i 0 hilen]
    exact List.getElem_mem hilen
  exact hch _ hmem (verifyStep_assertZero_imp H pp pubIn proof i hs)

/-- C9: `prove` reduces each challenge modulo `N` and asserts the result
nonzero, and `verify` asserts the reduced challenge nonzero after its range
check.  Under the precondition `0 < c < N` for every challenge, neither
assertion can fire: `prove` cannot panic at all and `verify` cannot panic with
the assertion (it can still panic on out-of-bounds indexing).  A `prove` call
whose first challenge is 0 or any multiple of `N` panics with the assertion
instead of returning an error, and a `verify` call on challenge 0 with a proof
that passes the earlier structural checks panics with the assertion instead of
returning an error or `Ok(false)`. -/
theorem c9_challenge_zero_assertions [DecidableEq F] (H : HasherModel F) (pp : PublicParams)
    (pubIn : PublicInputs F) (priv : PrivateInputs F) (proof : Proof F) :
    ((∀ c ∈ pubIn.challenges, 0 < c ∧ c < pp.graph.size) →
      (∀ k, prove H pp pubIn priv ≠ .panic k) ∧
        verify H pp pubIn proof ≠ .panic .assertZero) ∧
    (∀ c rest, pubIn.challenges = c :: rest → c % pp.graph.size = 0 →
      prove H pp pubIn priv = .panic .assertZero) ∧
    verify intHasher toyPP2 { replica_id := 5, challenges := [0], tau := none }
      zeroProofInt = .panic .assertZero := by
  refine ⟨fun hch => ⟨?_, ?_⟩, fun c rest hcs hc0 => ?_, by decide⟩
  · intro k
    apply prove_not_panic H pp pubIn priv
    intro c hc
    have := hch c hc
    rw [Nat.mod_eq_of_lt this.2]
    omega
  · apply verify_not_assertZero H pp pubIn proof
    intro c hc
    have := hch c hc
    rw [Nat.mod_eq_of_lt this.2]
    omega
  · have h1 : proveOne H pp pubIn.replica_id priv.replica priv.aux.tree_d priv.aux.tree_r c =
        .panic .assertZero := by
      simp only [proveOne]
      rw [if_pos hc0]
    unfold prove proveAux
    rw [hcs]
    simp only [h1]

/-! ## C4: parent binding -/

theorem zip_all_fst_eq {β : Type} : ∀ (rp : List (Nat × β)) (es : List Nat),
    rp.length = es.length →
    ((rp.zip es).all fun pe => pe.1.1 == pe.2) = true → rp.map Prod.fst = es := by
  intro rp
  induction rp with
  | nil =>
    intro es hl _
    cases es with
    | nil => rfl
    | cons e es' => simp at hl
  | cons pe rp ih =>
    intro es hl hall
    cases es with
    | nil => simp at hl
    | cons e es' =>
      simp only [List.zip_cons_cons, List.all_cons, Bool.and_eq_true, beq_iff_eq] at hall
      simp only [List.map_cons, hall.1]
      rw [ih es' (by simpa using hl) hall.2]

omit [Inhabited F] in
set_option maxHeartbeats 1000000 in
theorem verifyStep_none_lookups [DecidableEq F] (H : HasherModel F) (pp : PublicParams)
    (pubIn : PublicInputs F) (proof : Proof F) (i : Nat)
    (h : verifyStep H pp pubIn proof i = none) :
    ∃ nd rn rp, proof.nodes[i]? = some nd ∧ proof.replica_nodes[i]? = some rn ∧
      proof.replica_parents[i]? = some rp := by
  unfold verifyStep at h
  simp only [ge_iff_le] at h
  repeat' split at h
  all_goals first
    | exact ⟨_, _, _, by assumption, by assumption, by assumption⟩
    | simp at h

omit [Inhabited F] in
theorem verify_no_panic [DecidableEq F] (H : HasherModel F) (pp : PublicParams)
    (pubIn : PublicInputs F) (proof : Proof F)
    (hn : pubIn.challenges.length ≤ proof.nodes.length)
    (hr : pubIn.challenges.length ≤ proof.replica_nodes.length)
    (hp : pubIn.challenges.length ≤ proof.replica_parents.length)
    (hnz : ∀ c ∈ pubIn.challenges, c % pp.graph.size ≠ 0) :
    verify H pp pubIn proof = .ok true ∨ verify H pp pubIn proof = .ok false := by
  apply verifyAux_no_panic
  intro i hi k
  have hilen : i < pubIn.challenges.length := List.mem_range.mp hi
  rw [verifyStep_eq_stepChecks H pp pubIn proof i _ _ _
    (List.getElem?_eq_getElem (by omega)) (List.getElem?_eq_getElem (by omega))
    (List.getElem?_eq_getElem (by omega))]
  apply stepChecks_not_panic
  have hmem : pubIn.challenges.getD i 0 ∈ pubIn.challenges := by
    rw [getD_eq_getElem_of_lt pubIn.challenges i 0 hilen]
    exact List.getElem_mem hilen
  exact hnz _ hmem

theorem genProof_validate_ne [DecidableEq F] (H : HasherModel F) (leaves : List F)
    (p q : Nat) (hp : p < leaves.length) (hq : q < leaves.length) (hne : p ≠ q) :
    (genProof H leaves q).validate H p = false := by
  simp only [MerkleProof.validate, genProof]
  rw [pathMatches_genPath_ne H (leaves.map H.hashLeaf) p q (by simpa using hp)
    (by simpa using hq) hne]
  rfl

/-- C4 (amended): with proof vectors at least as long as the challenge list and
challenges nonzero mod N (so that no panic preempts the checks), `verify`
returns `Ok(true)` only if, at every challenge position, the claimed parent
indices equal `G.parents(challenge)` element-wise and every parent proof passes
its `validate` check at its claimed index — against the root stored inside the
parent proof itself: `verify` never compares any proof root with
`tau.comm_r`, which is what refutes the claim as stated (see the
counterexample).  Consequently mismatched parent indices, or any parent proof
failing `validate`, force `Ok(false)`; and an honest Merkle proof generated for
one leaf fails `validate` at any other claimed index, so swapping parent proofs
between distinct parents makes `verify` return `Ok(false)`. -/
theorem c4_parent_binding [DecidableEq F] (H : HasherModel F) (pp : PublicParams)
    (pubIn : PublicInputs F) (proof : Proof F)
    (hn : pubIn.challenges.length ≤ proof.nodes.length)
    (hr : pubIn.challenges.length ≤ proof.replica_nodes.length)
    (hp : pubIn.challenges.length ≤ proof.replica_parents.length)
    (hnz : ∀ c ∈ pubIn.challenges, c % pp.graph.size ≠ 0) :
    (verify H pp pubIn proof = .ok true →
      ∀ i < pubIn.challenges.length, ∃ rp, proof.replica_parents[i]? = some rp ∧
        rp.map Prod.fst = pp.graph.parents (pubIn.challenges.getD i 0) ∧
        (rp.all fun pe => pe.2.proof.validate H pe.1) = true) ∧
    ((∃ i, i < pubIn.challenges.length ∧ ∃ rp, proof.replica_parents[i]? = some rp ∧
        rp.map Prod.fst ≠ pp.graph.parents (pubIn.challenges.getD i 0)) →
      verify H pp pubIn proof = .ok false) ∧
    ((∃ i, i < pubIn.challenges.length ∧ ∃ rp, proof.replica_parents[i]? = some rp ∧
        ∃ pe ∈ rp, pe.2.proof.validate H pe.1 = false) →
      verify H pp pubIn proof = .ok false) ∧
    (∀ (leaves : List F) (p q : Nat), p < leaves.length → q < leaves.length → p ≠ q →
      (genProof H leaves q).validate H p = false) := by
  have hA : verify H pp pubIn proof = .ok true →
      ∀ i < pubIn.challenges.length, ∃ rp, proof.replica_parents[i]? = some rp ∧
        rp.map Prod.fst = pp.graph.parents (pubIn.challenges.getD i 0) ∧
        (rp.all fun pe => pe.2.proof.validate H pe.1) = true := by
    intro hok i hi
    have hstep := verify_ok_true_imp H pp pubIn proof hok i hi
    rw [verifyStep_eq_stepChecks H pp pubIn proof i _ _ _
      (List.getElem?_eq_getElem (show i < proof.nodes.length by omega))
      (List.getElem?_eq_getElem (show i < proof.replica_nodes.length by omega))
      (List.getElem?_eq_getElem (show i < proof.replica_parents.length by omega))] at hstep
    have hinv := stepChecks_none_inv H pp pubIn.replica_id _ _ _ _ hstep
    exact ⟨proof.replica_parents[i], List.getElem?_eq_getElem (by omega),
      zip_all_fst_eq _ _ hinv.2.2.2.1 hinv.2.2.2.2.1, hinv.2.2.2.2.2.2.2.1⟩
  refine ⟨hA, ?_, ?_, fun leaves p q hpq hq hne => genProof_validate_ne H leaves p q hpq hq hne⟩
  · rintro ⟨i, hi, rp, hrp, hmis⟩
    rcases verify_no_panic H pp pubIn proof hn hr hp hnz with hok | hfalse
    · obtain ⟨rp', hrp', hfst, _⟩ := hA hok i hi
      rw [hrp] at hrp'
      cases hrp'
      exact absurd hfst hmis
    · exact hfalse
  · rintro ⟨i, hi, rp, hrp, pe, hpe, hval⟩
    rcases verify_no_panic H pp pubIn proof hn hr hp hnz with hok | hfalse
    · obtain ⟨rp', hrp', _, hall⟩ := hA hok i hi
      rw [hrp] at hrp'
      cases hrp'
      have := List.all_eq_true.mp hall pe hpe
      rw [hval] at this
      exact absurd this (by simp)
    · exact hfalse

/-- Counterexample to C4 as stated: the honest proof for a different data
buffer verifies as `Ok(true)` against public inputs carrying the first
buffer's tau, although its parent proof's root is not that `comm_r`: `verify`
never checks proof roots against `comm_r`. -/
theorem c4_parent_binding_counterexample :
    verify intHasher toyPP2 { replica_id := 5, challenges := [1], tau := some repl2A.tau }
        honest2B = .ok true ∧
      (∃ rp, honest2B.replica_parents[0]? = some rp ∧
        ∃ pe ∈ rp, pe.2.proof.root ≠ repl2A.tau.comm_r) := by decide

/-- Witness for C4: the two-node instance with the honest proof for the second
buffer. -/
theorem c4_parent_binding_witness :
    (verify intHasher toyPP2 { replica_id := 5, challenges := [1], tau := some repl2A.tau }
        honest2B = .ok true →
      ∀ i < ([1] : List Nat).length, ∃ rp, honest2B.replica_parents[i]? = some rp ∧
        rp.map Prod.fst = toyPP2.graph.parents (([1] : List Nat).getD i 0) ∧
        (rp.all fun pe => pe.2.proof.validate intHasher pe.1) = true) ∧
    ((∃ i, i < ([1] : List Nat).length ∧ ∃ rp, honest2B.replica_parents[i]? = some rp ∧
        rp.map Prod.fst ≠ toyPP2.graph.parents (([1] : List Nat).getD i 0)) →
      verify intHasher toyPP2 { replica_id := 5, challenges := [1], tau := some repl2A.tau }
        honest2B = .ok false) ∧
    ((∃ i, i < ([1] : List Nat).length ∧ ∃ rp, honest2B.replica_parents[i]? = some rp ∧
        ∃ pe ∈ rp, pe.2.proof.validate intHasher pe.1 = false) →
      verify intHasher toyPP2 { replica_id := 5, challenges := [1], tau := some repl2A.tau }
        honest2B = .ok false) ∧
    (∀ (leaves : List Int) (p q : Nat), p < leaves.length → q < leaves.length → p ≠ q →
      (genProof intHasher leaves q).validate intHasher p = false) := by
  exact c4_parent_binding intHasher toyPP2
    { replica_id := 5, challenges := [1], tau := some repl2A.tau } honest2B
    (by decide) (by decide) (by decide) (by decide)

/-! ## C5: challenge binding -/

theorem shiftRight_div_two (c j : Nat) : (c / 2) >>> j = c >>> (j + 1) := by
  rw [Nat.shiftRight_eq_div_pow, Nat.shiftRight_eq_div_pow, Nat.div_div_eq_div_mul]
  congr 1
  rw [pow_succ]
  exact Nat.mul_comm 2 (2 ^ j)

omit [Inhabited F] in
theorem pathMatches_iff_bits :
    ∀ (path : List (F × Bool)) (c : Nat),
      pathMatches c path = true ↔
        ∀ j (hj : j < path.length),
          ((c >>> j) % 2 = 1) ↔ (path.get ⟨j, hj⟩).2 = true := by
  intro path
  induction path with
  | nil =>
    intro c
    constructor
    · intro _ j hj
      exact absurd hj (by simp)
    · intro _
      rfl
  | cons e rest ih =>
    intro c
    unfold pathMatches
    by_cases hb : ((c % 2 == 1) != e.2) = true
    · rw [if_pos hb]
      have hbne : ¬ ((c % 2 == 1) = e.2) := bne_iff_ne.mp hb
      constructor
      · intro h
        exact absurd h (by simp)
      · intro h
        exfalso
        have h0 := h 0 (by simp)
        simp only [Nat.shiftRight_zero, List.get_cons_zero] at h0
        rcases Nat.mod_two_eq_zero_or_one c with hc | hc <;> cases he : e.2 <;>
          simp [hc, he] at hbne h0
    · rw [if_neg hb]
      have hbeq : (c % 2 == 1) = e.2 := by
        rcases Bool.eq_false_or_eq_true ((c % 2 == 1) != e.2) with h | h
        · exact absurd h hb
        · exact bne_eq_false_iff_eq.mp h
      have hbit : (c % 2 = 1) ↔ (e.2 = true) := by
        rw [← hbeq]
        exact beq_iff_eq.symm
      rw [ih (c / 2)]
      constructor
      · intro h j hj
        cases j with
        | zero =>
          simpa only [Nat.shiftRight_zero, List.get_cons_zero] using hbit
        | succ j =>
          have hrec := h j (by simpa using hj)
          rw [shiftRight_div_two] at hrec
          simpa only [List.get_cons_succ] using hrec
      · intro h j hj
        have hrec := h (j + 1) (by simpa using hj)
        rw [← shiftRight_div_two] at hrec
        simpa only [List.get_cons_succ] using hrec

theorem first_diff :
    ∀ (a b : List Nat), a.length = b.length → a ≠ b →
      ∃ i, i < a.length ∧ a.getD i 0 ≠ b.getD i 0 ∧ ∀ j < i, a.getD j 0 = b.getD j 0 := by
  intro a
  induction a with
  | nil =>
    intro b hl hne
    cases b with
    | nil => exact absurd rfl hne
    | cons y ys => simp at hl
  | cons x xs ih =>
    intro b hl hne
    cases b with
    | nil => simp at hl
    | cons y ys =>
      by_cases hxy : x = y
      · subst hxy
        have hne' : xs ≠ ys := fun hE => hne (by rw [hE])
        obtain ⟨i, hi, hd, hpre⟩ := ih ys (by simpa using hl) hne'
        refine ⟨i + 1, by simpa using hi, by simpa using hd, ?_⟩
        intro j hj
        cases j with
        | zero => rfl
        | succ j => simpa using hpre j (by omega)
      · exact ⟨0, by simp, by simpa using hxy, fun j hj => absurd hj (by omega)⟩

/-- C5 (amended): `proves_challenge c` holds exactly when, at every level `j`
of the stored path, bit `j` of `c` agrees with the stored orientation bit (the
xor of the two is false); and a proof produced by an honest `prove` for one
challenge list, verified against any in-range nonzero challenge list of the
same length that differs from it, yields `Ok(false)`.  (The same-length proviso
is forced by the counterexample: a strict prefix of the prove-time list is a
different list that still verifies, since `verify` only scans the positions of
the supplied list.) -/
theorem c5_challenge_binding [DecidableEq F] (H : HasherModel F) (pp : PublicParams)
    (rid : F) (data : List F) (t t' : Option (Tau F)) (chs chs' : List Nat)
    (hs : ∀ k x, H.slothDecode k (H.slothEncode k x pp.sloth_iter) pp.sloth_iter = x)
    (hpar : ∀ j, ∀ p ∈ pp.graph.parents j, p < j)
    (hlen : data.length = pp.graph.size)
    (hch : ∀ c ∈ chs, 0 < c ∧ c < pp.graph.size)
    (hch' : ∀ c ∈ chs', 0 < c ∧ c < pp.graph.size)
    (hlen' : chs'.length = chs.length)
    (hne : chs' ≠ chs) :
    (∀ (dp : DataProof F) (c : Nat),
      dp.proves_challenge c = true ↔
        ∀ j (hj : j < dp.proof.path.length),
          ((c >>> j) % 2 = 1) ↔ (dp.proof.path.get ⟨j, hj⟩).2 = true) ∧
    prove H pp { replica_id := rid, challenges := chs, tau := t }
        { replica := (replicate H pp rid data).buf, aux := (replicate H pp rid data).aux } =
      .ok (honestProof H pp rid (replicate H pp rid data).buf data
        (replicate H pp rid data).buf chs) ∧
    verify H pp { replica_id := rid, challenges := chs', tau := t' }
      (honestProof H pp rid (replicate H pp rid data).buf data
        (replicate H pp rid data).buf chs) = .ok false := by
  have hreplen : (replicate H pp rid data).buf.length = pp.graph.size := by
    show (encode H pp.graph pp.sloth_iter rid data).length = pp.graph.size
    rw [encode_length]
    exact hlen
  refine ⟨fun dp c => pathMatches_iff_bits dp.proof.path c, ?_, ?_⟩
  · exact prove_eq_honest H pp _ _ hch hreplen hpar
  · obtain ⟨i, hi', hdiff, hpre⟩ := first_diff chs' chs hlen' hne
    have hi : i < chs.length := by omega
    have hcin : chs.getD i 0 ∈ chs := by
      rw [getD_eq_getElem_of_lt chs i 0 hi]
      exact List.getElem_mem hi
    have hcin' : chs'.getD i 0 ∈ chs' := by
      rw [getD_eq_getElem_of_lt chs' i 0 hi']
      exact List.getElem_mem hi'
    apply verify_early_return H pp _ _ i _ hi' ?hprev ?hstep
    case hprev =>
      intro j hj
      have hj' : j < chs.length := by omega
      have hjin : chs.getD j 0 ∈ chs := by
        rw [getD_eq_getElem_of_lt chs j 0 hj']
        exact List.getElem_mem hj'
      exact honest_step_none H pp rid data t' chs chs' j hs hpar hlen hj' (hpre j hj)
        (hch _ hjin).1 (hch _ hjin).2
    case hstep =>
      have hnd : (honestProof H pp rid (replicate H pp rid data).buf data
          (replicate H pp rid data).buf chs).nodes[i]? =
          some (honestDataNode H pp rid (replicate H pp rid data).buf data (chs.getD i 0)) :=
        getElem?_map_getD _ chs i 0 hi
      have hrn : (honestProof H pp rid (replicate H pp rid data).buf data
          (replicate H pp rid data).buf chs).replica_nodes[i]? =
          some (honestReplicaNode H (replicate H pp rid data).buf
            (replicate H pp rid data).buf (chs.getD i 0)) :=
        getElem?_map_getD _ chs i 0 hi
      have hrp : (honestProof H pp rid (replicate H pp rid data).buf data
          (replicate H pp rid data).buf chs).replica_parents[i]? =
          some (honestParents H pp.graph (replicate H pp rid data).buf
            (replicate H pp rid data).buf (chs.getD i 0)) :=
        getElem?_map_getD _ chs i 0 hi
      rw [verifyStep_eq_stepChecks H pp _ _ i _ _ _ hnd hrn hrp]
      apply stepChecks_fail_node_proves
      · exact (hch' _ hcin').2
      · show pathMatches (chs'.getD i 0)
          (genProof H data (chs.getD i 0)).path = false
        exact genProof_not_proves_other H data (chs'.getD i 0) (chs.getD i 0)
          (by have := (hch' _ hcin').2; omega) (by have := (hch _ hcin).2; omega) hdiff

/-- Counterexample to C5 as stated: the honest proof for prove-time challenges
`[1, 2]` also verifies as `Ok(true)` against the different in-range nonzero
challenge list `[1]` (a strict prefix). -/
theorem c5_challenge_binding_counterexample :
    prove intHasher toyPP3 { replica_id := 3, challenges := [1, 2], tau := some repl3.tau }
        { replica := repl3.buf, aux := repl3.aux } = .ok honest3 ∧
      ([1] : List Nat) ≠ [1, 2] ∧
      (∀ c ∈ ([1] : List Nat), 0 < c ∧ c < toyPP3.graph.size) ∧
      verify intHasher toyPP3 { replica_id := 3, challenges := [1], tau := some repl3.tau }
        honest3 = .ok true := by decide

/-- Witness for C5: verifying the honest `[1, 2]` proof against the
same-length different list `[2, 2]` yields `Ok(false)`. -/
theorem c5_challenge_binding_witness :
    (∀ (dp : DataProof Int) (c : Nat),
      dp.proves_challenge c = true ↔
        ∀ j (hj : j < dp.proof.path.length),
          ((c >>> j) % 2 = 1) ↔ (dp.proof.path.get ⟨j, hj⟩).2 = true) ∧
    prove intHasher toyPP3 { replica_id := 3, challenges := [1, 2], tau := some repl3.tau }
        { replica := (replicate intHasher toyPP3 3 [2, 5, 11]).buf,
          aux := (replicate intHasher toyPP3 3 [2, 5, 11]).aux } =
      .ok (honestProof intHasher toyPP3 3 (replicate intHasher toyPP3 3 [2, 5, 11]).buf
        [2, 5, 11] (replicate intHasher toyPP3 3 [2, 5, 11]).buf [1, 2]) ∧
    verify intHasher toyPP3 { replica_id := 3, challenges := [2, 2], tau := some repl3.tau }
      (honestProof intHasher toyPP3 3 (replicate intHasher toyPP3 3 [2, 5, 11]).buf
        [2, 5, 11] (replicate intHasher toyPP3 3 [2, 5, 11]).buf [1, 2]) = .ok false := by
  exact c5_challenge_binding intHasher toyPP3 3 [2, 5, 11] (some repl3.tau) (some repl3.tau)
    [1, 2] [2, 2] (fun k x => intHasher_sloth_inv k x toyPP3.sloth_iter) toyGraph3_par
    (by decide) (by decide) (by decide) (by decide) (by decide)

end DrgPoRep
